import Mathlib

/-
  Verification development for the crossword / trivia game server.

  Shallow embedding of the scoring, fire-streak, answer-judging, wagering,
  final-round and bot-timing logic of the server sources:
    - answer-checker (fuzzy answer judge),
    - db helpers addPoints / addGuess,
    - the crossword cell-update pipeline (processCellUpdate and the inline
      cell-update socket handler),
    - the trivia (Jeopardy) wager handlers, buzzer-timeout branch and
      Final Jeopardy finalization,
    - the bot solver timing distribution.

  JavaScript numbers are modelled as exact rationals; integer-valued
  quantities as Int or Nat.  JavaScript rounding:
    Math.round x = floor (x + 1/2), Math.floor = floor.
  Strings absent from a JS object are identified with the empty string
  (both are falsy in every guard the embedded code uses).
-/

namespace Spec2Proof

/-- JS Math.round: round half toward plus infinity. -/
def jsRound (q : ℚ) : ℤ := ⌊q + 1/2⌋

/-- JS Math.floor on a rational. -/
def jsFloor (q : ℚ) : ℤ := ⌊q⌋

-- ─────────────────────────────────────────────────────────────────────
-- Answer judge (answer-checker source file)
-- ─────────────────────────────────────────────────────────────────────

namespace AnswerChecker

/-- Whitespace characters recognised by the JS regexes used in normalize
    (space, tab, line feed, carriage return; the embedding restricts the
    JS whitespace class to these). -/
def isWs (c : Char) : Bool :=
  c == ' ' || c == '\t' || c == '\n' || c == '\r'

/-- Characters kept by the strip regex: lowercase ASCII letters, digits,
    or whitespace. -/
def isKept (c : Char) : Bool :=
  ('a' ≤ c && c ≤ 'z') || ('0' ≤ c && c ≤ '9') || isWs c

/-- Helper for collapseWs: the flag records whether the previous kept
    character came from a whitespace run. -/
def collapseWsAux : Bool → List Char → List Char
  | _, [] => []
  | prevWs, c :: cs =>
    if isWs c then
      if prevWs then collapseWsAux true cs
      else ' ' :: collapseWsAux true cs
    else c :: collapseWsAux false cs

/-- Collapse every whitespace run to a single space (the second replace
    in normalize). -/
def collapseWs (l : List Char) : List Char :=
  collapseWsAux false l

/-- Trim leading and trailing whitespace. -/
def trimWs (l : List Char) : List Char :=
  ((l.dropWhile fun c => isWs c).reverse.dropWhile fun c => isWs c).reverse

/-- The normalize function: lowercase, strip everything but ASCII
    alphanumerics and whitespace, collapse whitespace, trim. -/
def normalize (s : String) : List Char :=
  trimWs (collapseWs ((s.data.map Char.toLower).filter isKept))

/-- The stop-word set of the keyword matcher. -/
def stopWords : List String :=
  ["the", "a", "an", "of", "and", "in", "on", "at", "to",
   "for", "is", "are", "was", "were", "what", "who"]

/-- Split a character list on single spaces, exactly like JS split. -/
def splitOnSpace : List Char → List (List Char)
  | [] => [[]]
  | c :: cs =>
    match splitOnSpace cs with
    | [] => [[c]]
    | w :: ws => if c == ' ' then [] :: w :: ws else (c :: w) :: ws

/-- getKeyWords: tokens of length above one that are not stop words. -/
def getKeyWords (l : List Char) : List (List Char) :=
  (splitOnSpace l).filter fun w =>
    decide (w.length > 1) && !(decide (String.mk w ∈ stopWords))

/-- Inner loop of one row of the two-row Levenshtein dynamic program:
    given the remaining reference characters, the diagonal entry, the
    remaining previous-row entries and the entry to the left, produce the
    rest of the current row. -/
def levLoop (x : Char) : List Char → ℕ → List ℕ → ℕ → List ℕ
  | [], _, _, _ => []
  | _ :: _, _, [], _ => []
  | y :: ys, diag, above :: ps, left =>
    let v := if x == y then diag else 1 + min above (min left diag)
    v :: levLoop x ys above ps v

/-- One row step of the dynamic program: row index i gives the first
    entry, the rest comes from the loop over the reference word. -/
def levRow (x : Char) (b : List Char) (prev : List ℕ) (i : ℕ) : List ℕ :=
  match prev with
  | [] => []
  | p0 :: ptail => i :: levLoop x b p0 ptail i

/-- Levenshtein distance, two-row dynamic-programming scheme as in the
    source. -/
def levenshtein (a b : List Char) : ℕ :=
  if a.length = 0 then b.length
  else if b.length = 0 then a.length
  else
    let init := List.range (b.length + 1)
    let res := a.foldl (fun (st : ℕ × List ℕ) x =>
      (st.1 + 1, levRow x b st.2 (st.1 + 1))) (0, init)
    res.2.getLastD 0

/-- JS String.includes on character lists. -/
def jsIncludes : List Char → List Char → Bool
  | [], needle => needle.isEmpty
  | c :: t, needle => needle.isPrefixOf (c :: t) || jsIncludes t needle

/-- wordMatches: equality, containment (contained side longer than 3), or
    Levenshtein within a quarter of the correct word length. -/
def wordMatches (cw pw : List Char) : Bool :=
  cw == pw
  || (decide (cw.length > 3) && jsIncludes pw cw)
  || (decide (pw.length > 3) && jsIncludes cw pw)
  || decide (levenshtein cw pw ≤ cw.length / 4)

/-- checkAnswer: cascaded exact / keyword / edit-distance fuzzy judge.
    Returns the pair of the correct flag and the similarity rational. -/
def checkAnswer (playerAnswer correctAnswer : String) : Bool × ℚ :=
  if (trimWs playerAnswer.data).length = 0 then (false, 0)
  else
    let correct := normalize correctAnswer
    let player := normalize playerAnswer
    if correct = player then (true, 1)
    else
      let correctWords := getKeyWords correct
      let playerWords := getKeyWords player
      if correctWords.length > 0 ∧ playerWords.length > 0 ∧
          correctWords.any (fun cw => playerWords.any fun pw => wordMatches cw pw) then
        (true, 4/5)
      else
        let maxDistance := max 2 (correct.length / 5)
        let dist := levenshtein correct player
        if dist ≤ maxDistance then
          (true, 1 - (dist : ℚ) / ((max correct.length 1 : ℕ) : ℚ))
        else
          (false, max 0 (1 - (dist : ℚ) / ((max correct.length (max player.length 1) : ℕ) : ℚ)))

end AnswerChecker

-- Claim C3 ────────────────────────────────────────────────────────────

open AnswerChecker in
/-- Claim C3, counterexample: checkAnswer does not always return a
    similarity inside the closed interval from 0 to 1.  For the player
    answer bc against the correct answer a, the edit-distance branch
    accepts (distance 2 is within the tolerance max 2 (len / 5) = 2) and
    returns similarity 1 - 2 / 1 = -1, which is below 0. -/
theorem claim_C3_counterexample :
    checkAnswer ("bc") ("a") = (true, -1) ∧ ¬((0 : ℚ) ≤ -1) := by
  constructor
  · simp +decide only [checkAnswer]
    have h1 : levenshtein (normalize ("a")) (normalize ("bc")) = 2 := by decide
    have h2 : (normalize ("a")).length = 1 := by decide
    rw [h1, h2]
    norm_num
  · norm_num

open AnswerChecker in
/-- Claim C3, amended: for every pair of input strings, checkAnswer
    returns a boolean correct flag together with a similarity value lying
    in the closed interval from -1 to 1 (the lower endpoint -1 is
    reachable, as the counterexample shows, when the edit-distance branch
    accepts against a reference whose normalized length is at most 1). -/
theorem claim_C3_similarity_bounds (p c : String) :
    -1 ≤ (checkAnswer p c).2 ∧ (checkAnswer p c).2 ≤ 1 := by
  simp only [checkAnswer]
  split_ifs with h1 h2 h3 h4
  · constructor <;> norm_num
  · constructor <;> norm_num
  · constructor <;> norm_num
  · have hL := Nat.le_max_right (normalize c).length 1
    have hmpos : (0 : ℚ) < ((max (normalize c).length 1 : ℕ) : ℚ) := by
      exact_mod_cast Nat.lt_of_lt_of_le Nat.zero_lt_one hL
    have hdle : levenshtein (normalize c) (normalize p) ≤ 2 * max (normalize c).length 1 := by
      omega
    have hdleQ : ((levenshtein (normalize c) (normalize p) : ℕ) : ℚ)
        ≤ 2 * ((max (normalize c).length 1 : ℕ) : ℚ) := by
      exact_mod_cast hdle
    have hdiv : ((levenshtein (normalize c) (normalize p) : ℕ) : ℚ)
        / ((max (normalize c).length 1 : ℕ) : ℚ) ≤ 2 :=
      (div_le_iff₀ hmpos).mpr (by linarith)
    have hnn : (0 : ℚ) ≤ ((levenshtein (normalize c) (normalize p) : ℕ) : ℚ)
        / ((max (normalize c).length 1 : ℕ) : ℚ) := by positivity
    constructor
    · push_cast at hdiv hnn ⊢
      linarith
    · push_cast at hdiv hnn ⊢
      linarith
  · have hnn : (0 : ℚ) ≤ ((levenshtein (normalize c) (normalize p) : ℕ) : ℚ)
        / ((max (normalize c).length (max (normalize p).length 1) : ℕ) : ℚ) := by positivity
    constructor
    · push_cast at hnn ⊢
      have h0 : (0 : ℚ) ≤ (0 : ℚ) ⊔ (1 - (levenshtein (normalize c) (normalize p) : ℚ)
          / ((normalize c).length ⊔ ((normalize p).length ⊔ 1) : ℚ)) := le_max_left _ _
      linarith
    · push_cast at hnn ⊢
      apply max_le (by norm_num)
      linarith

-- ─────────────────────────────────────────────────────────────────────
-- Crossword room: puzzle data, persistence helpers, cell-update pipeline
-- ─────────────────────────────────────────────────────────────────────

namespace Crossword

/-- A clue record; only the start coordinates are consulted by the
    embedded logic (number, text and answer fields are unused there). -/
structure Clue where
  row : ℕ
  col : ℕ
deriving DecidableEq, Repr

/-- Word direction. -/
inductive Dir
  | across
  | down
deriving DecidableEq, Repr

/-- Immutable puzzle content.  Cells and rebus entries are total
    functions; a JS undefined value is identified with the empty string,
    and a blocked cell carries the dot string. -/
structure Puzzle where
  rows : ℕ
  cols : ℕ
  grid : ℕ → ℕ → String
  rebus : ℕ → ℕ → String
  cluesAcross : List Clue
  cluesDown : List Clue

/-- getCorrectAnswer: the rebus entry if present, else the grid letter of
    a non-blocked in-range cell, else the empty string (for JS null or
    undefined). -/
def getCorrectAnswer (p : Puzzle) (row col : ℕ) : String :=
  if p.rebus row col ≠ "" then p.rebus row col
  else if p.grid row col ≠ "." ∧ p.grid row col ≠ "" then p.grid row col
  else ""

/-- isCellCorrectServer: a non-empty value matching the full correct
    answer (a rebus cell therefore requires the full string). -/
def isCellCorrectServer (p : Puzzle) (row col : ℕ) (val : String) : Bool :=
  if val = "" then false
  else val == getCorrectAnswer p row col

/-- The while loop of getServerWordCells for an across word; the fuel
    argument is the remaining column count, which bounds the loop. -/
def wordCellsAcrossGo (p : Puzzle) (r : ℕ) : ℕ → ℕ → List (ℕ × ℕ)
  | _, 0 => []
  | c, fuel + 1 =>
    if r < p.rows ∧ c < p.cols ∧ p.grid r c ≠ "." then
      (r, c) :: wordCellsAcrossGo p r (c + 1) fuel
    else []

/-- The while loop of getServerWordCells for a down word. -/
def wordCellsDownGo (p : Puzzle) (c : ℕ) : ℕ → ℕ → List (ℕ × ℕ)
  | _, 0 => []
  | r, fuel + 1 =>
    if r < p.rows ∧ c < p.cols ∧ p.grid r c ≠ "." then
      (r, c) :: wordCellsDownGo p c (r + 1) fuel
    else []

/-- getServerWordCells: the run of non-blocked cells starting at the clue
    position in the given direction. -/
def getServerWordCells (p : Puzzle) (clue : Clue) (dir : Dir) : List (ℕ × ℕ) :=
  match dir with
  | .across => wordCellsAcrossGo p clue.row clue.col (p.cols - clue.col)
  | .down => wordCellsDownGo p clue.col clue.row (p.rows - clue.row)

/-- checkWordCompletions: count the across and down words through the
    given cell whose cells all resolve to their correct answers in the
    live user grid, collecting the cells of each completed word. -/
def checkWordCompletions (p : Puzzle) (userGrid : ℕ → ℕ → String) (row col : ℕ) :
    ℕ × List (ℕ × ℕ) :=
  let process := fun (acc : ℕ × List (ℕ × ℕ)) (pr : Dir × Clue) =>
    let cells := getServerWordCells p pr.2 pr.1
    if cells.any (fun rc => rc.1 == row && rc.2 == col) then
      if cells.all (fun rc => isCellCorrectServer p rc.1 rc.2 (userGrid rc.1 rc.2)) then
        (acc.1 + 1, acc.2 ++ cells)
      else acc
    else acc
  (p.cluesAcross.map (fun cl => (Dir.across, cl))
    ++ p.cluesDown.map (fun cl => (Dir.down, cl))).foldl process (0, [])

/-- Persisted shared state of one puzzle date (the puzzle-state row):
    user grid, filler attributions, points and guess counters.  Absent
    JSON keys are the empty string, zero, or the zero pair. -/
structure DbState where
  userGrid : ℕ → ℕ → String
  cellFillers : List ((ℕ × ℕ) × String)
  points : String → ℤ
  guesses : String → ℕ × ℕ

/-- upsertCell: write the letter at the cell (deleting, in the JSON row,
    when the letter is empty; both states read back as the empty
    string). -/
def upsertCell (st : DbState) (row col : ℕ) (letter : String) : DbState :=
  { st with userGrid := fun r c => if r = row ∧ c = col then letter else st.userGrid r c }

/-- Update of the filler association list underlying upsertCellFiller:
    an empty name deletes the key, otherwise the entry is replaced in
    place or appended. -/
def setFillerList (l : List ((ℕ × ℕ) × String)) (key : ℕ × ℕ) (name : String) :
    List ((ℕ × ℕ) × String) :=
  if name = "" then l.filter (fun kv => kv.1 ≠ key)
  else if l.any (fun kv => kv.1 == key) then
    l.map (fun kv => if kv.1 == key then (key, name) else kv)
  else l ++ [(key, name)]

/-- upsertCellFiller on the embedded state. -/
def upsertCellFiller (st : DbState) (row col : ℕ) (name : String) : DbState :=
  { st with cellFillers := setFillerList st.cellFillers (row, col) name }

/-- addPoints: no-op on a zero delta, otherwise add the delta to the
    per-user total (absent users start from zero). -/
def addPoints (st : DbState) (userName : String) (delta : ℤ) : DbState :=
  if delta = 0 then st
  else { st with points := fun n => if n = userName then st.points n + delta else st.points n }

/-- addGuess: increment the user total, and the incorrect counter when
    the guess was wrong. -/
def addGuess (st : DbState) (userName : String) (isCorrect : Bool) : DbState :=
  { st with guesses := fun n =>
      if n = userName then
        ((st.guesses n).1 + 1, (st.guesses n).2 + (if isCorrect then 0 else 1))
      else st.guesses n }

/-- One recent-word-completion entry of the fire streak state. -/
structure FireCompletion where
  timestamp : ℤ
  count : ℕ
  wordCells : List (ℕ × ℕ)
deriving DecidableEq, Repr

/-- Per-member fire streak state.  The JS fireTimer handle is not part of
    the embedded state (timer effects are external). -/
structure FireState where
  recentWordCompletions : List FireCompletion
  onFire : Bool
  fireExpiresAt : ℤ
  fireCells : List (ℕ × ℕ)
  fireMultiplier : ℚ
  fireWordsCompleted : ℕ
deriving DecidableEq, Repr

/-- The fire streak entry created on first use: not on fire, multiplier
    three halves, empty history. -/
def freshFireStreak : FireState :=
  { recentWordCompletions := []
    onFire := false
    fireExpiresAt := 0
    fireCells := []
    fireMultiplier := 3/2
    fireWordsCompleted := 0 }

/-- Fire event kinds broadcast with a cell update. -/
inductive FireEventType
  | broken
  | extended
  | started
deriving DecidableEq, Repr

/-- A fire event payload; the broken event carries zero as remainingMs
    (the JS payload has no such field there). -/
structure FireEvent where
  type : FireEventType
  fireCells : List (ℕ × ℕ)
  remainingMs : ℤ
  fireMultiplier : ℚ
deriving DecidableEq, Repr

/-- All cells the user has filled according to the filler map, as used
    for the fire display (filler values are strings here, which is what
    upsertCellFiller stores). -/
def userFireCellsOf (fillers : List ((ℕ × ℕ) × String)) (userName : String) :
    List (ℕ × ℕ) :=
  (fillers.filter (fun kv => kv.2 == userName)).map (fun kv => kv.1)

/-- puzzleComplete: every non-blocked cell of the grid resolves to its
    correct answer in the user grid. -/
def puzzleComplete (p : Puzzle) (userGrid : ℕ → ℕ → String) : Bool :=
  (List.range p.rows).all fun r =>
    (List.range p.cols).all fun c =>
      p.grid r c == "." || userGrid r c == getCorrectAnswer p r c

/-- Output of the scoring pass of a cell update (everything before the
    last-square check).  The hintReset flag records the clearing of hint
    availability and votes on a word bonus. -/
structure ScorePass where
  db : DbState
  fs : FireState
  pointDelta : ℤ
  wordBonus : ℤ
  fireEvent : Option FireEvent
  guessCorrect : Option Bool
  hintReset : Bool

/-- The scoring block of the cell-update pipeline, translated from the
    source.  The two-word bonus constant is a parameter because the two
    shipped copies of this block differ in exactly that constant (250 in
    the bot-enabled server file, 150 in server.js); every other step is
    identical in both copies. -/
def scorePass (twoWordBonus : ℤ) (p : Puzzle) (hintCells : List (ℕ × ℕ))
    (st2 : DbState) (fs0 : FireState) (now : ℤ) (row col : ℕ)
    (letter userName : String) : ScorePass :=
  if letter ≠ "" ∧ (row, col) ∉ hintCells ∧ getCorrectAnswer p row col ≠ "" then
    let isCorrect := isCellCorrectServer p row col letter
    let isRebus := p.rebus row col ≠ "" ∧ letter.length > 1
    let basePts : ℤ := if isRebus then 50 else 10
    let wasOnFire := fs0.onFire
    let pd : ℤ × FireState × Option FireEvent :=
      if isCorrect && fs0.onFire then
        (jsRound ((basePts : ℚ) * fs0.fireMultiplier), fs0, none)
      else if isCorrect && !fs0.onFire then (basePts, fs0, none)
      else if !isCorrect && fs0.onFire then
        (-30,
         { fs0 with onFire := false, fireExpiresAt := 0, fireCells := [],
                    recentWordCompletions := [], fireMultiplier := 3/2,
                    fireWordsCompleted := 0 },
         some ⟨.broken, fs0.fireCells, 0, fs0.fireMultiplier⟩)
      else (-30, { fs0 with recentWordCompletions := [] }, none)
    let pointDelta := pd.1
    let fs1 := pd.2.1
    let fireEvent0 := pd.2.2
    let st3 := addPoints st2 userName pointDelta
    let st4 := addGuess st3 userName isCorrect
    if isCorrect then
      let comp := checkWordCompletions p st4.userGrid row col
      let completed := comp.1
      let raw : ℤ := if completed ≥ 2 then twoWordBonus
                     else if completed = 1 then 50 else 0
      let wordBonus := if raw ≠ 0 ∧ wasOnFire then
          jsRound ((raw : ℚ) * fs1.fireMultiplier) else raw
      if wordBonus ≠ 0 then
        let st5 := addPoints st4 userName wordBonus
        let userFireCells := userFireCellsOf st5.cellFillers userName
        if fs1.onFire && wasOnFire then
          let fwc := fs1.fireWordsCompleted + completed
          let mult : ℚ := 3/2 + ((fwc / 3 : ℕ) : ℚ) * (1/2)
          let expires := fs1.fireExpiresAt + 5000
          let fs2 := { fs1 with fireWordsCompleted := fwc, fireMultiplier := mult,
                                fireExpiresAt := expires, fireCells := userFireCells }
          ⟨st5, fs2, pointDelta, wordBonus,
            some ⟨.extended, userFireCells, expires - now, mult⟩, some isCorrect, true⟩
        else if !fs1.onFire then
          let recent := (fs1.recentWordCompletions
              ++ [({ timestamp := now, count := completed, wordCells := comp.2 } : FireCompletion)]).filter
              (fun e => now - e.timestamp < 30000)
          let total := (recent.map (fun e => e.count)).sum
          if total ≥ 3 then
            let fs2 := { fs1 with onFire := true, fireExpiresAt := now + 30000,
                                  fireCells := userFireCells, fireMultiplier := 3/2,
                                  fireWordsCompleted := 0, recentWordCompletions := [] }
            ⟨st5, fs2, pointDelta, wordBonus,
              some ⟨.started, userFireCells, 30000, 3/2⟩, some isCorrect, true⟩
          else
            ⟨st5, { fs1 with recentWordCompletions := recent }, pointDelta, wordBonus,
              fireEvent0, some isCorrect, true⟩
        else
          ⟨st5, fs1, pointDelta, wordBonus, fireEvent0, some isCorrect, true⟩
      else
        ⟨st4, fs1, pointDelta, wordBonus, fireEvent0, some isCorrect, false⟩
    else
      ⟨st4, fs1, pointDelta, 0, fireEvent0, some isCorrect, false⟩
  else
    ⟨st2, fs0, 0, 0, none, none, false⟩

/-- Full result of one cell update. -/
structure CellUpdateResult where
  dbAfter : DbState
  fsAfter : FireState
  pointDelta : ℤ
  wordBonus : ℤ
  fireEvent : Option FireEvent
  guessCorrect : Option Bool
  lastSquareBonus : ℤ
  hintReset : Bool

/-- The cell-update pipeline: upsert cell and filler, run the scoring
    pass, then award the last-square bonus when the update was a correct
    guess and the whole puzzle now resolves.  Broadcasting, timers and
    bot eviction are external effects and not part of the state. -/
def cellUpdateCore (twoWordBonus : ℤ) (p : Puzzle) (hintCells : List (ℕ × ℕ))
    (st0 : DbState) (fs0 : FireState) (now : ℤ) (row col : ℕ)
    (letter userName : String) : CellUpdateResult :=
  let st1 := upsertCell st0 row col letter
  let st2 := upsertCellFiller st1 row col (if letter ≠ "" then userName else "")
  let sp := scorePass twoWordBonus p hintCells st2 fs0 now row col letter userName
  if letter ≠ "" ∧ sp.guessCorrect = some true then
    if puzzleComplete p sp.db.userGrid then
      { dbAfter := addPoints sp.db userName 250
        fsAfter := sp.fs
        pointDelta := sp.pointDelta
        wordBonus := sp.wordBonus
        fireEvent := sp.fireEvent
        guessCorrect := sp.guessCorrect
        lastSquareBonus := 250
        hintReset := sp.hintReset }
    else
      { dbAfter := sp.db, fsAfter := sp.fs, pointDelta := sp.pointDelta
        wordBonus := sp.wordBonus, fireEvent := sp.fireEvent
        guessCorrect := sp.guessCorrect, lastSquareBonus := 0
        hintReset := sp.hintReset }
  else
    { dbAfter := sp.db, fsAfter := sp.fs, pointDelta := sp.pointDelta
      wordBonus := sp.wordBonus, fireEvent := sp.fireEvent
      guessCorrect := sp.guessCorrect, lastSquareBonus := 0
      hintReset := sp.hintReset }

/-- processCellUpdate of the bot-enabled server file: two-word bonus
    constant 250. -/
def processCellUpdate : Puzzle → List (ℕ × ℕ) → DbState → FireState → ℤ → ℕ → ℕ →
    String → String → CellUpdateResult :=
  cellUpdateCore 250

/-- The inline cell-update socket handler of server.js: identical block
    with two-word bonus constant 150. -/
def serverCellUpdate : Puzzle → List (ℕ × ℕ) → DbState → FireState → ℤ → ℕ → ℕ →
    String → String → CellUpdateResult :=
  cellUpdateCore 150

end Crossword

-- Helper lemmas on the cell-update pipeline ───────────────────────────

open Crossword

/-- The database state after the two initial upserts of a cell update. -/
def dbAfterUpserts (st : DbState) (row col : ℕ) (letter u : String) : DbState :=
  upsertCellFiller (upsertCell st row col letter) row col (if letter ≠ "" then u else "")

/-- Projection of an if-then-else of scoring passes. -/
theorem scorePass_pointDelta_ite (c : Prop) [Decidable c] (x y : ScorePass) :
    (if c then x else y).pointDelta = if c then x.pointDelta else y.pointDelta := by
  split_ifs <;> rfl

/-- Projection of an if-then-else of scoring passes. -/
theorem scorePass_wordBonus_ite (c : Prop) [Decidable c] (x y : ScorePass) :
    (if c then x else y).wordBonus = if c then x.wordBonus else y.wordBonus := by
  split_ifs <;> rfl

/-- The last-square step of the pipeline changes neither the scoring
    outputs nor the fire state: they come from the scoring pass. -/
theorem cellUpdateCore_toScorePass (b : ℤ) (p : Puzzle) (h : List (ℕ × ℕ)) (st : DbState)
    (fs : FireState) (now : ℤ) (row col : ℕ) (letter u : String) :
    (cellUpdateCore b p h st fs now row col letter u).pointDelta =
      (scorePass b p h (dbAfterUpserts st row col letter u) fs now row col letter u).pointDelta ∧
    (cellUpdateCore b p h st fs now row col letter u).wordBonus =
      (scorePass b p h (dbAfterUpserts st row col letter u) fs now row col letter u).wordBonus ∧
    (cellUpdateCore b p h st fs now row col letter u).fsAfter =
      (scorePass b p h (dbAfterUpserts st row col letter u) fs now row col letter u).fs ∧
    (cellUpdateCore b p h st fs now row col letter u).fireEvent =
      (scorePass b p h (dbAfterUpserts st row col letter u) fs now row col letter u).fireEvent ∧
    (cellUpdateCore b p h st fs now row col letter u).guessCorrect =
      (scorePass b p h (dbAfterUpserts st row col letter u) fs now row col letter u).guessCorrect := by
  simp only [cellUpdateCore, dbAfterUpserts]
  split_ifs <;> simp

/-- Per-cell delta and incorrect-guess effects of the scoring pass, for a
    scoring-eligible update (non-empty letter, non-hint cell, cell with a
    correct answer). -/
theorem scorePass_delta_spec (b : ℤ) (p : Puzzle) (hintCells : List (ℕ × ℕ)) (st : DbState)
    (fs : FireState) (now : ℤ) (row col : ℕ) (letter userName : String)
    (hletter : letter ≠ "") (hhint : (row, col) ∉ hintCells)
    (hans : getCorrectAnswer p row col ≠ "") :
    ((isCellCorrectServer p row col letter = true →
        (scorePass b p hintCells st fs now row col letter userName).pointDelta =
          (if fs.onFire then
            jsRound (((if p.rebus row col ≠ "" ∧ letter.length > 1 then (50 : ℤ) else 10) : ℚ)
              * fs.fireMultiplier)
           else (if p.rebus row col ≠ "" ∧ letter.length > 1 then 50 else 10))) ∧
     (isCellCorrectServer p row col letter = false →
        (scorePass b p hintCells st fs now row col letter userName).pointDelta = -30 ∧
        (scorePass b p hintCells st fs now row col letter userName).fs.recentWordCompletions = [] ∧
        (fs.onFire = true →
          (scorePass b p hintCells st fs now row col letter userName).fs.onFire = false ∧
          (scorePass b p hintCells st fs now row col letter userName).fireEvent =
            some ⟨.broken, fs.fireCells, 0, fs.fireMultiplier⟩))) := by
  simp only [scorePass]
  rw [if_pos ⟨hletter, hhint, hans⟩]
  cases hic : isCellCorrectServer p row col letter <;> cases hof : fs.onFire <;>
    simp only [hic, hof, Bool.true_and, Bool.false_and, Bool.and_true, Bool.and_false,
      Bool.not_true, Bool.not_false, if_true, if_false, Bool.false_eq_true, Bool.true_eq_false]
  · simp
  · simp
  · refine ⟨fun _ => ?_, fun h => by simp at h⟩
    simp only [scorePass_pointDelta_ite, ite_self]
  · refine ⟨fun _ => ?_, fun h => by simp at h⟩
    simp only [scorePass_pointDelta_ite, ite_self]
    split_ifs <;> norm_num

/-- addPoints does not touch the user grid. -/
theorem addPoints_userGrid (st : DbState) (u : String) (d : ℤ) :
    (addPoints st u d).userGrid = st.userGrid := by
  unfold addPoints; split_ifs <;> rfl

/-- addGuess does not touch the user grid. -/
theorem addGuess_userGrid (st : DbState) (u : String) (b : Bool) :
    (addGuess st u b).userGrid = st.userGrid := rfl

/-- JS rounding of an integer value is that integer. -/
theorem jsRound_intCast (n : ℤ) : jsRound ((n : ℤ) : ℚ) = n := by
  unfold jsRound
  rw [add_comm, Int.floor_add_int]
  norm_num

/-- JS rounding is exact on an even integer times a multiplier of the
    form three halves plus half a natural. -/
theorem jsRound_mul_halfstep (a : ℤ) (ha : 2 ∣ a) (k : ℕ) :
    ((jsRound ((a : ℚ) * (3/2 + (k : ℚ)/2)) : ℤ) : ℚ) = (a : ℚ) * (3/2 + (k : ℚ)/2) := by
  obtain ⟨m, rfl⟩ := ha
  have harg : ((2 * m : ℤ) : ℚ) * (3/2 + (k : ℚ)/2) = ((3 * m + m * (k : ℤ) : ℤ) : ℚ) := by
    push_cast; ring
  rw [harg, jsRound_intCast]

/-- Word-bonus value of the scoring pass on a correct eligible guess, in
    terms of the completion count on the post-upsert grid: the raw bonus
    table, JS-rounded against the multiplier exactly when the user was
    already on fire entering the update. -/
theorem scorePass_wordBonus_spec (b : ℤ) (p : Puzzle) (hintCells : List (ℕ × ℕ)) (st : DbState)
    (fs : FireState) (now : ℤ) (row col : ℕ) (letter userName : String)
    (hletter : letter ≠ "") (hhint : (row, col) ∉ hintCells)
    (hans : getCorrectAnswer p row col ≠ "")
    (hcorrect : isCellCorrectServer p row col letter = true) :
    ((fs.onFire = false →
        (scorePass b p hintCells st fs now row col letter userName).wordBonus =
          (if 2 ≤ (checkWordCompletions p st.userGrid row col).1 then b
           else if (checkWordCompletions p st.userGrid row col).1 = 1 then 50 else 0)) ∧
     (fs.onFire = true →
        (scorePass b p hintCells st fs now row col letter userName).wordBonus =
          (if (if 2 ≤ (checkWordCompletions p st.userGrid row col).1 then b
               else if (checkWordCompletions p st.userGrid row col).1 = 1 then 50 else 0) ≠ 0 then
            jsRound (((if 2 ≤ (checkWordCompletions p st.userGrid row col).1 then b
               else if (checkWordCompletions p st.userGrid row col).1 = 1 then 50 else 0) : ℚ)
              * fs.fireMultiplier)
           else 0))) := by
  simp only [scorePass]
  rw [if_pos ⟨hletter, hhint, hans⟩]
  cases hof : fs.onFire <;>
    simp only [hof, hcorrect, Bool.true_and, Bool.false_and, Bool.and_true, Bool.and_false,
      Bool.not_true, Bool.not_false, if_true, if_false, Bool.false_eq_true, Bool.true_eq_false,
      and_true, and_false, ne_eq, not_false_eq_true, addPoints_userGrid, addGuess_userGrid]
  · refine ⟨fun _ => ?_, fun h => by simp at h⟩
    simp only [scorePass_wordBonus_ite, ite_self]
  · refine ⟨fun h => by simp at h, fun _ => ?_⟩
    simp only [scorePass_wordBonus_ite, ite_self]
    split_ifs <;> first | rfl | omega

-- Claim C1 ────────────────────────────────────────────────────────────

/-- Claim C1: for a scoring-eligible cell update (non-empty letter on a
    non-hint cell that has a correct answer) the per-cell delta is
    computed from base 50 for a rebus fill of length above one and 10
    otherwise; a correct guess on fire earns round (base times the fire
    multiplier), a correct guess off fire earns base, an incorrect guess
    earns -30 and resets the recent-completions list, additionally
    breaking the fire when on fire.  Stated for the shared pipeline body
    with the two-word bonus constant as a parameter, which covers both
    shipped copies (250 and 150). -/
theorem claim_C1_cell_delta (b : ℤ) (p : Puzzle) (hintCells : List (ℕ × ℕ)) (st : DbState)
    (fs : FireState) (now : ℤ) (row col : ℕ) (letter userName : String)
    (hletter : letter ≠ "") (hhint : (row, col) ∉ hintCells)
    (hans : getCorrectAnswer p row col ≠ "") :
    ((isCellCorrectServer p row col letter = true →
        (cellUpdateCore b p hintCells st fs now row col letter userName).pointDelta =
          (if fs.onFire then
            jsRound (((if p.rebus row col ≠ "" ∧ letter.length > 1 then (50 : ℤ) else 10) : ℚ)
              * fs.fireMultiplier)
           else (if p.rebus row col ≠ "" ∧ letter.length > 1 then 50 else 10))) ∧
     (isCellCorrectServer p row col letter = false →
        (cellUpdateCore b p hintCells st fs now row col letter userName).pointDelta = -30 ∧
        (cellUpdateCore b p hintCells st fs now row col letter userName).fsAfter.recentWordCompletions = [] ∧
        (fs.onFire = true →
          (cellUpdateCore b p hintCells st fs now row col letter userName).fsAfter.onFire = false ∧
          (cellUpdateCore b p hintCells st fs now row col letter userName).fireEvent =
            some ⟨.broken, fs.fireCells, 0, fs.fireMultiplier⟩))) := by
  obtain ⟨hp, _hw, hf, he, _hg⟩ :=
    cellUpdateCore_toScorePass b p hintCells st fs now row col letter userName
  rw [hp, hf, he]
  exact scorePass_delta_spec b p hintCells (dbAfterUpserts st row col letter userName)
    fs now row col letter userName hletter hhint hans

/-- A one-by-one example puzzle whose single cell answers A, covered by
    one across and one down clue. -/
def examplePuzzle : Puzzle :=
  { rows := 1, cols := 1,
    grid := fun r c => if r = 0 ∧ c = 0 then "A" else "",
    rebus := fun _ _ => "",
    cluesAcross := [⟨0, 0⟩], cluesDown := [⟨0, 0⟩] }

/-- The empty persisted state. -/
def emptyDb : DbState :=
  { userGrid := fun _ _ => "", cellFillers := [], points := fun _ => 0,
    guesses := fun _ => (0, 0) }

/-- Witness for claim C1: the concrete eligible update writing A at the
    single cell of the example puzzle satisfies the three hypotheses, and
    its correct branch yields the base delta 10 off fire. -/
theorem claim_C1_cell_delta_witness :
    (("A" : String) ≠ "" ∧ ((0, 0) : ℕ × ℕ) ∉ ([] : List (ℕ × ℕ)) ∧
      getCorrectAnswer examplePuzzle 0 0 ≠ "") ∧
    ((isCellCorrectServer examplePuzzle 0 0 ("A") = true →
        (cellUpdateCore 250 examplePuzzle [] emptyDb freshFireStreak 1000 0 0 ("A") ("u")).pointDelta =
          (if freshFireStreak.onFire then
            jsRound (((if examplePuzzle.rebus 0 0 ≠ "" ∧ ("A" : String).length > 1 then (50 : ℤ) else 10) : ℚ)
              * freshFireStreak.fireMultiplier)
           else (if examplePuzzle.rebus 0 0 ≠ "" ∧ ("A" : String).length > 1 then 50 else 10))) ∧
     (isCellCorrectServer examplePuzzle 0 0 ("A") = false →
        (cellUpdateCore 250 examplePuzzle [] emptyDb freshFireStreak 1000 0 0 ("A") ("u")).pointDelta = -30 ∧
        (cellUpdateCore 250 examplePuzzle [] emptyDb freshFireStreak 1000 0 0 ("A") ("u")).fsAfter.recentWordCompletions = [] ∧
        (freshFireStreak.onFire = true →
          (cellUpdateCore 250 examplePuzzle [] emptyDb freshFireStreak 1000 0 0 ("A") ("u")).fsAfter.onFire = false ∧
          (cellUpdateCore 250 examplePuzzle [] emptyDb freshFireStreak 1000 0 0 ("A") ("u")).fireEvent =
            some ⟨.broken, freshFireStreak.fireCells, 0, freshFireStreak.fireMultiplier⟩))) :=
  ⟨⟨by decide, by decide, by decide⟩,
    claim_C1_cell_delta 250 examplePuzzle [] emptyDb freshFireStreak 1000 0 0 ("A") ("u")
      (by decide) (by decide) (by decide)⟩

-- Claim C2 ────────────────────────────────────────────────────────────

/-- Claim C2, counterexample: in the server.js copy of the cell-update
    handler a correct fill completing two words at once earns a word
    bonus of 150, not 250.  The single-cell example puzzle completes both
    its across and its down word on the correct fill. -/
theorem claim_C2_counterexample :
    (checkWordCompletions examplePuzzle
      (dbAfterUpserts emptyDb 0 0 ("A") ("u")).userGrid 0 0).1 = 2 ∧
    (serverCellUpdate examplePuzzle [] emptyDb freshFireStreak 1000 0 0 ("A") ("u")).guessCorrect
      = some true ∧
    (serverCellUpdate examplePuzzle [] emptyDb freshFireStreak 1000 0 0 ("A") ("u")).wordBonus
      = 150 ∧
    ((150 : ℤ) ≠ 250) :=
  ⟨by decide, by decide, by decide, by decide⟩

/-- Claim C2, amended: on a correct eligible cell update the word bonus
    before fire scaling is 250 in the bot-enabled server file and 150 in
    server.js when two words are completed at once, 50 when exactly one
    is completed, and 0 otherwise; the bonus is multiplied by the fire
    multiplier exactly when the user was already on fire entering the
    update (stated with the reachable multiplier shape three halves plus
    half a natural, under which the JS rounding of the product is
    exact). -/
theorem claim_C2_word_bonus (p : Puzzle) (hintCells : List (ℕ × ℕ)) (st : DbState)
    (fs : FireState) (now : ℤ) (row col : ℕ) (letter userName : String)
    (hletter : letter ≠ "") (hhint : (row, col) ∉ hintCells)
    (hans : getCorrectAnswer p row col ≠ "")
    (hcorrect : isCellCorrectServer p row col letter = true)
    (k : ℕ) (hmult : fs.fireMultiplier = 3/2 + (k : ℚ)/2) :
    (((processCellUpdate p hintCells st fs now row col letter userName).wordBonus : ℤ) : ℚ) =
      (((if 2 ≤ (checkWordCompletions p (dbAfterUpserts st row col letter userName).userGrid row col).1
          then (250 : ℤ)
          else if (checkWordCompletions p (dbAfterUpserts st row col letter userName).userGrid row col).1 = 1
          then 50 else 0) : ℤ) : ℚ) * (if fs.onFire then fs.fireMultiplier else 1) ∧
    (((serverCellUpdate p hintCells st fs now row col letter userName).wordBonus : ℤ) : ℚ) =
      (((if 2 ≤ (checkWordCompletions p (dbAfterUpserts st row col letter userName).userGrid row col).1
          then (150 : ℤ)
          else if (checkWordCompletions p (dbAfterUpserts st row col letter userName).userGrid row col).1 = 1
          then 50 else 0) : ℤ) : ℚ) * (if fs.onFire then fs.fireMultiplier else 1) := by
  have key : ∀ b : ℤ, 2 ∣ b →
      (((cellUpdateCore b p hintCells st fs now row col letter userName).wordBonus : ℤ) : ℚ) =
      (((if 2 ≤ (checkWordCompletions p (dbAfterUpserts st row col letter userName).userGrid row col).1
          then b
          else if (checkWordCompletions p (dbAfterUpserts st row col letter userName).userGrid row col).1 = 1
          then 50 else 0) : ℤ) : ℚ) * (if fs.onFire then fs.fireMultiplier else 1) := by
    intro b hb
    have hT := cellUpdateCore_toScorePass b p hintCells st fs now row col letter userName
    have hSp := scorePass_wordBonus_spec b p hintCells (dbAfterUpserts st row col letter userName)
      fs now row col letter userName hletter hhint hans hcorrect
    rw [hT.2.1]
    cases hof : fs.onFire
    · rw [hSp.1 hof]
      simp
    · rw [hSp.2 hof]
      simp only [if_true]
      by_cases hr : (if 2 ≤ (checkWordCompletions p (dbAfterUpserts st row col letter userName).userGrid row col).1
          then b
          else if (checkWordCompletions p (dbAfterUpserts st row col letter userName).userGrid row col).1 = 1
          then 50 else 0) = 0
      · rw [if_neg (by simpa using hr)]
        rw [hr]
        simp
      · rw [if_pos hr, hmult]
        have hcast : (if 2 ≤ (checkWordCompletions p (dbAfterUpserts st row col letter userName).userGrid row col).1
            then (b : ℚ)
            else if (checkWordCompletions p (dbAfterUpserts st row col letter userName).userGrid row col).1 = 1
            then (50 : ℚ) else (0 : ℚ))
            = (((if 2 ≤ (checkWordCompletions p (dbAfterUpserts st row col letter userName).userGrid row col).1
            then b
            else if (checkWordCompletions p (dbAfterUpserts st row col letter userName).userGrid row col).1 = 1
            then 50 else 0) : ℤ) : ℚ) := by
          split_ifs <;> norm_num
        rw [hcast]
        apply jsRound_mul_halfstep
        split_ifs with h2 h1
        · exact hb
        · decide
        · decide
  exact ⟨key 250 (by decide), key 150 (by decide)⟩

/-- Witness for claim C2: the correct fill at the single cell of the
    example puzzle completes two words with the fresh fire state (off
    fire, multiplier three halves), so the bonus factor is one. -/
theorem claim_C2_word_bonus_witness :
    (("A" : String) ≠ "" ∧ ((0, 0) : ℕ × ℕ) ∉ ([] : List (ℕ × ℕ)) ∧
      getCorrectAnswer examplePuzzle 0 0 ≠ "" ∧
      isCellCorrectServer examplePuzzle 0 0 ("A") = true ∧
      freshFireStreak.fireMultiplier = 3/2 + ((0 : ℕ) : ℚ)/2) ∧
    ((((processCellUpdate examplePuzzle [] emptyDb freshFireStreak 1000 0 0 ("A") ("u")).wordBonus : ℤ) : ℚ) =
      (((if 2 ≤ (checkWordCompletions examplePuzzle
            (dbAfterUpserts emptyDb 0 0 ("A") ("u")).userGrid 0 0).1
          then (250 : ℤ)
          else if (checkWordCompletions examplePuzzle
            (dbAfterUpserts emptyDb 0 0 ("A") ("u")).userGrid 0 0).1 = 1
          then 50 else 0) : ℤ) : ℚ) * (if freshFireStreak.onFire then freshFireStreak.fireMultiplier else 1) ∧
     (((serverCellUpdate examplePuzzle [] emptyDb freshFireStreak 1000 0 0 ("A") ("u")).wordBonus : ℤ) : ℚ) =
      (((if 2 ≤ (checkWordCompletions examplePuzzle
            (dbAfterUpserts emptyDb 0 0 ("A") ("u")).userGrid 0 0).1
          then (150 : ℤ)
          else if (checkWordCompletions examplePuzzle
            (dbAfterUpserts emptyDb 0 0 ("A") ("u")).userGrid 0 0).1 = 1
          then 50 else 0) : ℤ) : ℚ) * (if freshFireStreak.onFire then freshFireStreak.fireMultiplier else 1)) :=
  ⟨⟨by decide, by decide, by decide, by decide, by norm_num [freshFireStreak]⟩,
    claim_C2_word_bonus examplePuzzle [] emptyDb freshFireStreak 1000 0 0 ("A") ("u")
      (by decide) (by decide) (by decide) (by decide) 0 (by norm_num [freshFireStreak])⟩

-- Claim C4 ────────────────────────────────────────────────────────────

/-- addPoints adds the delta to the named user. -/
theorem addPoints_points_self (st : DbState) (u : String) (d : ℤ) :
    (addPoints st u d).points u = st.points u + d := by
  unfold addPoints
  split_ifs with h
  · omega
  · simp

/-- addPoints does not touch the guess counters. -/
theorem addPoints_guesses (st : DbState) (u : String) (d : ℤ) :
    (addPoints st u d).guesses = st.guesses := by
  unfold addPoints; split_ifs <;> rfl

/-- addGuess does not touch the points. -/
theorem addGuess_points (st : DbState) (u : String) (c : Bool) :
    (addGuess st u c).points = st.points := rfl

/-- addGuess increments the named user's total, and the incorrect count
    exactly on a wrong guess. -/
theorem addGuess_guesses_self (st : DbState) (u : String) (c : Bool) :
    (addGuess st u c).guesses u
      = ((st.guesses u).1 + 1, (st.guesses u).2 + (if c then 0 else 1)) := by
  simp [addGuess]

/-- Projection of an if-then-else of scoring passes. -/
theorem scorePass_db_ite (c : Prop) [Decidable c] (x y : ScorePass) :
    (if c then x else y).db = if c then x.db else y.db := by
  split_ifs <;> rfl

/-- The two initial upserts change neither points nor guesses. -/
theorem dbAfterUpserts_points_guesses (st : DbState) (row col : ℕ) (letter u : String) :
    (dbAfterUpserts st row col letter u).points = st.points ∧
    (dbAfterUpserts st row col letter u).guesses = st.guesses :=
  ⟨rfl, rfl⟩

set_option maxHeartbeats 2000000 in
/-- Points and guess counters after the scoring pass of an eligible
    update: points move by exactly the per-cell delta plus the word
    bonus, the guess total increments, and the incorrect count increments
    exactly on a wrong guess. -/
theorem scorePass_db_spec (b : ℤ) (p : Puzzle) (hintCells : List (ℕ × ℕ)) (st : DbState)
    (fs : FireState) (now : ℤ) (row col : ℕ) (letter userName : String)
    (hletter : letter ≠ "") (hhint : (row, col) ∉ hintCells)
    (hans : getCorrectAnswer p row col ≠ "") :
    ((scorePass b p hintCells st fs now row col letter userName).db.points userName
        = st.points userName
          + (scorePass b p hintCells st fs now row col letter userName).pointDelta
          + (scorePass b p hintCells st fs now row col letter userName).wordBonus) ∧
    ((scorePass b p hintCells st fs now row col letter userName).db.guesses userName
        = ((st.guesses userName).1 + 1,
           (st.guesses userName).2
             + (if isCellCorrectServer p row col letter then 0 else 1))) := by
  simp only [scorePass]
  rw [if_pos ⟨hletter, hhint, hans⟩]
  cases hic : isCellCorrectServer p row col letter <;>
    simp only [hic, Bool.true_and, Bool.false_and, Bool.and_true, Bool.and_false,
      Bool.not_true, Bool.not_false, if_true, if_false, Bool.false_eq_true, Bool.true_eq_false]
  · constructor
    · simp only [scorePass_db_ite, scorePass_pointDelta_ite, scorePass_wordBonus_ite, ite_self,
        apply_ite (fun d : DbState => d.points userName),
        addPoints_points_self, addGuess_points, addPoints_guesses]
      ring
    · simp only [scorePass_db_ite, ite_self,
        apply_ite (fun d : DbState => d.guesses userName),
        addPoints_guesses, addGuess_guesses_self]
      norm_num
  · constructor
    · simp only [scorePass_db_ite, scorePass_pointDelta_ite, scorePass_wordBonus_ite, ite_self,
        apply_ite (fun d : DbState => d.points userName),
        addPoints_points_self, addGuess_points, addPoints_guesses]
      split_ifs
      all_goals try (rename_i hzero; rw [ne_eq, not_not] at hzero; rw [hzero])
      all_goals ring
    · simp only [scorePass_db_ite, ite_self,
        apply_ite (fun d : DbState => d.guesses userName),
        addPoints_guesses, addGuess_guesses_self]
      norm_num

/-- Connecting the pipeline result to the scoring pass on the database
    side: the final points are the pass points plus the (nonnegative)
    last-square bonus, and the guess counters are those of the pass. -/
theorem cellUpdateCore_db_spec (b : ℤ) (p : Puzzle) (h : List (ℕ × ℕ)) (st : DbState)
    (fs : FireState) (now : ℤ) (row col : ℕ) (letter u : String) :
    ((cellUpdateCore b p h st fs now row col letter u).dbAfter.points u
        = (scorePass b p h (dbAfterUpserts st row col letter u) fs now row col letter u).db.points u
          + (cellUpdateCore b p h st fs now row col letter u).lastSquareBonus) ∧
    ((cellUpdateCore b p h st fs now row col letter u).dbAfter.guesses u
        = (scorePass b p h (dbAfterUpserts st row col letter u) fs now row col letter u).db.guesses u) ∧
    (0 ≤ (cellUpdateCore b p h st fs now row col letter u).lastSquareBonus) := by
  simp only [cellUpdateCore, dbAfterUpserts]
  split_ifs <;>
    refine ⟨?_, ?_, ?_⟩ <;>
    simp [addPoints_points_self, addPoints_guesses]

/-- A correct value is non-empty and equals the correct answer. -/
theorem isCellCorrectServer_true_iff (p : Puzzle) (row col : ℕ) (v : String) :
    isCellCorrectServer p row col v = true ↔ v ≠ "" ∧ v = getCorrectAnswer p row col := by
  unfold isCellCorrectServer
  split_ifs with h
  · simp [h]
  · simp [h, beq_iff_eq]

/-- The JS rounding is nonnegative on nonnegative input. -/
theorem jsRound_nonneg (q : ℚ) (h : 0 ≤ q) : 0 ≤ jsRound q := by
  unfold jsRound
  rw [Int.le_floor]
  push_cast
  linarith

/-- The JS rounding is strictly positive on input at least one. -/
theorem jsRound_pos (q : ℚ) (h : 1 ≤ q) : 0 < jsRound q := by
  unfold jsRound
  rw [Int.lt_iff_add_one_le, Int.le_floor]
  push_cast
  linarith

/-- The per-cell delta of a correct eligible guess is strictly positive
    when the fire multiplier is at least three halves while on fire. -/
theorem scorePass_pointDelta_pos (b : ℤ) (p : Puzzle) (hintCells : List (ℕ × ℕ)) (st : DbState)
    (fs : FireState) (now : ℤ) (row col : ℕ) (letter userName : String)
    (hletter : letter ≠ "") (hhint : (row, col) ∉ hintCells)
    (hans : getCorrectAnswer p row col ≠ "")
    (hcorrect : isCellCorrectServer p row col letter = true)
    (hfs : fs.onFire = true → (3/2 : ℚ) ≤ fs.fireMultiplier) :
    0 < (scorePass b p hintCells st fs now row col letter userName).pointDelta := by
  rw [(scorePass_delta_spec b p hintCells st fs now row col letter userName
    hletter hhint hans).1 hcorrect]
  cases hof : fs.onFire
  · rw [if_neg (by simp)]
    split_ifs <;> norm_num
  · rw [if_pos rfl]
    have hm := hfs hof
    apply jsRound_pos
    split_ifs <;> push_cast <;> nlinarith

/-- The word bonus of a correct eligible guess is nonnegative for a
    nonnegative two-word constant. -/
theorem scorePass_wordBonus_nonneg (b : ℤ) (hb : 0 ≤ b) (p : Puzzle)
    (hintCells : List (ℕ × ℕ)) (st : DbState)
    (fs : FireState) (now : ℤ) (row col : ℕ) (letter userName : String)
    (hletter : letter ≠ "") (hhint : (row, col) ∉ hintCells)
    (hans : getCorrectAnswer p row col ≠ "")
    (hcorrect : isCellCorrectServer p row col letter = true)
    (hfs : fs.onFire = true → (3/2 : ℚ) ≤ fs.fireMultiplier) :
    0 ≤ (scorePass b p hintCells st fs now row col letter userName).wordBonus := by
  have hSp := scorePass_wordBonus_spec b p hintCells st fs now row col letter userName
    hletter hhint hans hcorrect
  cases hof : fs.onFire
  · rw [hSp.1 hof]
    split_ifs <;> omega
  · rw [hSp.2 hof]
    have hm := hfs hof
    have hmnn : (0 : ℚ) ≤ fs.fireMultiplier := by linarith
    have hbq : (0 : ℚ) ≤ ((b : ℤ) : ℚ) := by exact_mod_cast hb
    by_cases hr : (if 2 ≤ (checkWordCompletions p st.userGrid row col).1 then b
        else if (checkWordCompletions p st.userGrid row col).1 = 1 then 50 else 0) = 0
    · rw [if_neg (by simpa using hr)]
    · rw [if_pos hr]
      apply jsRound_nonneg
      apply mul_nonneg _ hmnn
      split_ifs <;> first | exact hbq | norm_num

/-- Claim C4, amended: for every cell update on a non-hint cell whose
    letter equals the cell's correct answer, the persisted points of the
    user strictly increase and the guess total minus the incorrect count
    increases by exactly one.  Stated for the shared pipeline with a
    nonnegative two-word bonus constant (250 and 150 are the shipped
    values), with the reachable-fire side condition that the multiplier
    is at least three halves while on fire. -/
theorem claim_C4_points_guesses (b : ℤ) (hb : 0 ≤ b) (p : Puzzle)
    (hintCells : List (ℕ × ℕ)) (st : DbState)
    (fs : FireState) (now : ℤ) (row col : ℕ) (letter userName : String)
    (hhint : (row, col) ∉ hintCells)
    (hcorrect : isCellCorrectServer p row col letter = true)
    (hfs : fs.onFire = true → (3/2 : ℚ) ≤ fs.fireMultiplier) :
    st.points userName
      < (cellUpdateCore b p hintCells st fs now row col letter userName).dbAfter.points userName ∧
    (((cellUpdateCore b p hintCells st fs now row col letter userName).dbAfter.guesses userName).1 : ℤ)
        - ((cellUpdateCore b p hintCells st fs now row col letter userName).dbAfter.guesses userName).2
      = ((st.guesses userName).1 : ℤ) - (st.guesses userName).2 + 1 := by
  have hlh := (isCellCorrectServer_true_iff p row col letter).mp hcorrect
  have hletter := hlh.1
  have hans : getCorrectAnswer p row col ≠ "" := by
    rw [← hlh.2]; exact hlh.1
  have hDb := cellUpdateCore_db_spec b p hintCells st fs now row col letter userName
  have hSp := scorePass_db_spec b p hintCells (dbAfterUpserts st row col letter userName)
    fs now row col letter userName hletter hhint hans
  have hUp := dbAfterUpserts_points_guesses st row col letter userName
  have hPd := scorePass_pointDelta_pos b p hintCells (dbAfterUpserts st row col letter userName)
    fs now row col letter userName hletter hhint hans hcorrect hfs
  have hWb := scorePass_wordBonus_nonneg b hb p hintCells (dbAfterUpserts st row col letter userName)
    fs now row col letter userName hletter hhint hans hcorrect hfs
  constructor
  · rw [hDb.1, hSp.1, hUp.1]
    have hLs := hDb.2.2
    omega
  · rw [hDb.2.1, hSp.2, hUp.2, if_pos hcorrect]
    push_cast
    ring

/-- Claim C4, counterexample: a cell update whose letter equals the
    cell's correct answer but lands on a hint cell is not scored: points
    and guess counters are unchanged, so the claimed strict increase and
    the guess-count increment both fail. -/
theorem claim_C4_counterexample :
    ("A" : String) = getCorrectAnswer examplePuzzle 0 0 ∧
    (processCellUpdate examplePuzzle [(0, 0)] emptyDb freshFireStreak 1000 0 0 ("A") ("u")).dbAfter.points ("u") = 0 ∧
    emptyDb.points ("u") = 0 ∧
    (processCellUpdate examplePuzzle [(0, 0)] emptyDb freshFireStreak 1000 0 0 ("A") ("u")).dbAfter.guesses ("u") = (0, 0) ∧
    emptyDb.guesses ("u") = (0, 0) :=
  ⟨by decide, by decide, by decide, by decide, by decide⟩

/-- Witness for claim C4: the correct non-hint fill at the single cell of
    the example puzzle, off fire, increases points and the guess
    difference. -/
theorem claim_C4_points_guesses_witness :
    ((0 : ℤ) ≤ 250 ∧ ((0, 0) : ℕ × ℕ) ∉ ([] : List (ℕ × ℕ)) ∧
      isCellCorrectServer examplePuzzle 0 0 ("A") = true ∧
      (freshFireStreak.onFire = true → (3/2 : ℚ) ≤ freshFireStreak.fireMultiplier)) ∧
    (emptyDb.points ("u")
      < (cellUpdateCore 250 examplePuzzle [] emptyDb freshFireStreak 1000 0 0 ("A") ("u")).dbAfter.points ("u") ∧
    (((cellUpdateCore 250 examplePuzzle [] emptyDb freshFireStreak 1000 0 0 ("A") ("u")).dbAfter.guesses ("u")).1 : ℤ)
        - ((cellUpdateCore 250 examplePuzzle [] emptyDb freshFireStreak 1000 0 0 ("A") ("u")).dbAfter.guesses ("u")).2
      = ((emptyDb.guesses ("u")).1 : ℤ) - (emptyDb.guesses ("u")).2 + 1) :=
  ⟨⟨by norm_num, by decide, by decide, fun h => by simp [freshFireStreak] at h ⊢⟩,
    claim_C4_points_guesses 250 (by norm_num) examplePuzzle [] emptyDb freshFireStreak 1000 0 0
      ("A") ("u") (by decide) (by decide)
      (fun h => by simp [freshFireStreak] at h ⊢)⟩

-- Claim C5 ────────────────────────────────────────────────────────────

/-- Reachable shape of the fire multiplier: while on fire it equals
    three halves plus half of the number of completed on-fire word
    triples. -/
def fireInv (fs : FireState) : Prop :=
  fs.onFire = true →
    fs.fireMultiplier = 3/2 + ((fs.fireWordsCompleted / 3 : ℕ) : ℚ) * (1/2)

/-- One-step fire relation: the multiplier does not decrease while fire
    persists, and equals three halves at an ignition. -/
def fireRel (a c : FireState) : Prop :=
  (a.onFire = true → c.onFire = true → a.fireMultiplier ≤ c.fireMultiplier) ∧
  (a.onFire = false → c.onFire = true → c.fireMultiplier = 3/2)

/-- The one-step fire relation is reflexive. -/
theorem fireRel_refl (a : FireState) : fireRel a a :=
  ⟨fun _ _ => le_refl _, fun h1 h2 => by rw [h1] at h2; exact absurd h2 (by simp)⟩

/-- Projection of an if-then-else of scoring passes. -/
theorem scorePass_fs_ite (c : Prop) [Decidable c] (x y : ScorePass) :
    (if c then x else y).fs = if c then x.fs else y.fs := by
  split_ifs <;> rfl

/-- Field access on a fire state literal. -/
theorem mkFS_fireMultiplier (r : List FireCompletion) (o : Bool) (e : ℤ)
    (cells : List (ℕ × ℕ)) (m : ℚ) (w : ℕ) :
    (FireState.mk r o e cells m w).fireMultiplier = m := rfl

set_option maxHeartbeats 2000000 in
/-- One scoring pass preserves the multiplier-shape invariant and
    satisfies the one-step fire relation. -/
theorem scorePass_fire_step (b : ℤ) (p : Puzzle) (hintCells : List (ℕ × ℕ)) (st : DbState)
    (fs : FireState) (now : ℤ) (row col : ℕ) (letter userName : String)
    (hInv : fireInv fs) :
    fireInv (scorePass b p hintCells st fs now row col letter userName).fs ∧
    fireRel fs (scorePass b p hintCells st fs now row col letter userName).fs := by
  simp only [scorePass]
  by_cases hg : letter ≠ "" ∧ (row, col) ∉ hintCells ∧ getCorrectAnswer p row col ≠ ""
  case neg =>
    rw [if_neg hg]
    exact ⟨hInv, fireRel_refl fs⟩
  case pos =>
  rw [if_pos hg]
  cases hic : isCellCorrectServer p row col letter <;> cases hof : fs.onFire <;>
    simp only [hic, hof, Bool.true_and, Bool.false_and, Bool.and_true, Bool.and_false,
      Bool.not_true, Bool.not_false, if_true, if_false, Bool.false_eq_true, Bool.true_eq_false,
      Bool.and_self, and_false, and_true, false_and, true_and]
  · -- incorrect, off fire
    refine ⟨fun hOn => ?_, fun h1 h2 => ?_, fun h1 h2 => ?_⟩ <;> simp_all [fireInv]
  · -- incorrect, on fire: fire broken
    refine ⟨fun hOn => ?_, fun h1 h2 => ?_, fun h1 h2 => ?_⟩ <;> simp_all
  · -- correct, off fire
    simp only [scorePass_fs_ite, ite_self]
    split_ifs
    all_goals refine ⟨fun hOn => ?_, fun h1 h2 => ?_, fun h1 h2 => ?_⟩
    all_goals first
      | exact hInv hOn
      | (norm_num; done)
      | (simp at hOn; done)
      | (simp [hof] at h1; done)
      | (simp at h2; done)
      | (simp [hof] at h2; done)
  · -- correct, on fire
    simp only [scorePass_fs_ite, ite_self]
    split_ifs
    all_goals refine ⟨fun hOn => ?_, fun h1 h2 => ?_, fun h1 h2 => ?_⟩
    all_goals first
      | exact hInv hOn
      | exact le_refl _
      | rfl
      | (simp [hof] at h1; done)
      | (rw [hInv h1]; simp only [mkFS_fireMultiplier];
         gcongr <;> first | positivity | exact Nat.le_add_right _ _)
      | (norm_num; done)

/-- One cell update by a fixed user, seen as a step on the pair of the
    persisted state and the fire streak state. -/
structure UpdIn where
  now : ℤ
  row : ℕ
  col : ℕ
  letter : String

/-- The state transformer of one cell update. -/
def cwStep (b : ℤ) (p : Puzzle) (hintCells : List (ℕ × ℕ)) (userName : String)
    (s : DbState × FireState) (u : UpdIn) : DbState × FireState :=
  let r := cellUpdateCore b p hintCells s.1 s.2 u.now u.row u.col u.letter userName
  (r.dbAfter, r.fsAfter)

/-- One cell update preserves the multiplier-shape invariant and
    satisfies the one-step fire relation. -/
theorem cwStep_fire (b : ℤ) (p : Puzzle) (hintCells : List (ℕ × ℕ)) (userName : String)
    (s : DbState × FireState) (u : UpdIn) (hInv : fireInv s.2) :
    fireInv (cwStep b p hintCells userName s u).2 ∧
    fireRel s.2 (cwStep b p hintCells userName s u).2 := by
  have hT := cellUpdateCore_toScorePass b p hintCells s.1 s.2 u.now u.row u.col u.letter userName
  have hS := scorePass_fire_step b p hintCells
    (dbAfterUpserts s.1 u.row u.col u.letter userName) s.2 u.now u.row u.col u.letter userName hInv
  simp only [cwStep]
  rw [hT.2.2.1]
  exact hS

/-- The head of a scan is its start state. -/
theorem scanl_head_eq {α β : Type} (f : β → α → β) (b : β) (l : List α) :
    (List.scanl f b l).head? = some b := by
  cases l <;> simp [List.scanl_nil, List.scanl_cons]

/-- Along any run of cell updates from a state satisfying the multiplier
    invariant, consecutive fire states satisfy the one-step fire
    relation. -/
theorem fireChainAux (b : ℤ) (p : Puzzle) (hintCells : List (ℕ × ℕ)) (userName : String)
    (us : List UpdIn) :
    ∀ init : DbState × FireState, fireInv init.2 →
      List.Chain' (fun s t => fireRel s.2 t.2)
        (List.scanl (cwStep b p hintCells userName) init us) := by
  induction us with
  | nil =>
      intro init _
      rw [List.scanl_nil]
      exact List.chain'_singleton _
  | cons u us ih =>
      intro init hInv
      rw [List.scanl_cons]
      have hstep := cwStep_fire b p hintCells userName init u hInv
      rw [List.singleton_append]
      apply List.chain'_cons'.mpr
      constructor
      · intro y hy
        rw [scanl_head_eq] at hy
        cases hy
        exact hstep.2
      · exact ih (cwStep b p hintCells userName init u) hstep.1

/-- Claim C5: across every sequence of cell updates by one user,
    starting from the fresh fire streak state, the fire multiplier is
    monotonically non-decreasing between consecutive states as long as
    the user stays on fire, and equals three halves at the moment of
    every fire ignition. -/
theorem claim_C5_fire_monotone (b : ℤ) (p : Puzzle) (hintCells : List (ℕ × ℕ))
    (userName : String) (db0 : DbState) (us : List UpdIn) :
    List.Chain' (fun s t : DbState × FireState =>
        (s.2.onFire = true → t.2.onFire = true → s.2.fireMultiplier ≤ t.2.fireMultiplier) ∧
        (s.2.onFire = false → t.2.onFire = true → t.2.fireMultiplier = 3/2))
      (List.scanl (cwStep b p hintCells userName) (db0, freshFireStreak) us) :=
  fireChainAux b p hintCells userName us (db0, freshFireStreak)
    (fun h => by simp [freshFireStreak] at h)

-- ─────────────────────────────────────────────────────────────────────
-- Jeopardy room engine (server-jeopardy source file)
-- ─────────────────────────────────────────────────────────────────────

namespace Jeopardy

/-- The phase set of the room state machine. -/
inductive JPhase
  | lobby
  | selectingClue
  | readingClue
  | buzzerOpen
  | playerAnswering
  | showingResult
  | dailyDoubleWager
  | dailyDoubleAnswer
  | finalCategory
  | finalWager
  | finalClue
  | finalResults
  | gameOver
deriving DecidableEq, Repr

/-- The round of the game. -/
inductive JRound
  | jeopardy
  | doubleJeopardy
  | finalJeopardy
deriving DecidableEq, Repr

/-- A seated player; only name and score are consulted by the embedded
    logic (color, AI flags and device fields are not). -/
structure JPlayer where
  name : String
  score : ℤ
deriving DecidableEq, Repr

/-- One round of board data; only the clue slot keys (cat, row) matter to
    the used-clue bookkeeping embedded here. -/
structure JRoundData where
  clues : List (ℕ × ℕ)
deriving DecidableEq, Repr

/-- The current clue; clue text is not consulted by the embedded logic. -/
structure CurrentClue where
  cat : ℕ
  row : ℕ
  value : ℤ
  answer : String
deriving DecidableEq, Repr

/-- Final Jeopardy data; only the answer is consulted here. -/
structure FJInfo where
  answer : String
deriving DecidableEq, Repr

/-- Room state, restricted to the fields the embedded handlers read or
    write.  Timers, the host socket, the controlling player and the
    buzzer queue are not part of the embedded state. -/
structure JRoom where
  phase : JPhase
  currentRound : JRound
  usedClues : List (ℕ × ℕ)
  players : List (String × JPlayer)
  answeringPlayer : Option String
  currentClue : Option CurrentClue
  buzzedPlayers : List String
  dailyDoubleWager : Option ℤ
  jRound : Option JRoundData
  djRound : Option JRoundData
  fj : Option FJInfo
  fjWagers : List (String × ℤ)
  fjAnswers : List (String × String)
deriving DecidableEq, Repr

/-- Replace-or-append update of an association list (the JS map set). -/
def setAssoc {β : Type} (l : List (String × β)) (k : String) (v : β) :
    List (String × β) :=
  if l.any (fun kv => kv.1 == k) then l.map (fun kv => if kv.1 == k then (k, v) else kv)
  else l ++ [(k, v)]

/-- getRoundData: the jeopardy board in the jeopardy round, the double
    jeopardy board otherwise. -/
def getRoundData (room : JRoom) : Option JRoundData :=
  if room.currentRound = JRound.jeopardy then room.jRound else room.djRound

/-- getMissingSlots: the board slots of the six-by-five grid with no clue
    data. -/
def getMissingSlots (rd : Option JRoundData) : List (ℕ × ℕ) :=
  match rd with
  | none => []
  | some rd =>
    ((List.range 6).bind fun cat => (List.range 5).map fun i => (cat, i + 1)).filter
      fun key => key ∉ rd.clues

/-- allCluesUsed: every clue of the current round sits in the used set
    (vacuously true without round data). -/
def allCluesUsed (room : JRoom) : Bool :=
  match getRoundData room with
  | none => true
  | some rd => rd.clues.all fun c => c ∈ room.usedClues

/-- endGame: the room enters the game-over phase (progress persistence,
    broadcast and delayed eviction are external effects). -/
def endGame (room : JRoom) : JRoom :=
  { room with phase := JPhase.gameOver }

/-- startFinalJeopardy: without final data end the game, otherwise enter
    the final category phase with fresh wager and answer books. -/
def startFinalJeopardy (room : JRoom) : JRoom :=
  if room.fj = none then endGame room
  else
    { room with currentRound := JRound.finalJeopardy, phase := JPhase.finalCategory,
                fjWagers := [], fjAnswers := [] }

/-- The clue bookkeeping cleared at the top of
    transitionToClueSelection. -/
def clearedRoom (room : JRoom) : JRoom :=
  { room with currentClue := none, answeringPlayer := none,
              buzzedPlayers := [], dailyDoubleWager := none }

/-- transitionToClueSelection: clear clue bookkeeping; when the round is
    exhausted switch to double jeopardy (reseeding used clues with the
    missing slots) or start final jeopardy, otherwise return to the clue
    selection phase. -/
def transitionToClueSelection (room : JRoom) : JRoom :=
  let room1 := clearedRoom room
  if allCluesUsed room1 then
    if room1.currentRound = JRound.jeopardy then
      { room1 with currentRound := JRound.doubleJeopardy,
                   usedClues := getMissingSlots room1.djRound,
                   phase := JPhase.selectingClue }
    else startFinalJeopardy room1
  else { room1 with phase := JPhase.selectingClue }

/-- Result of the buzzer-window timeout callback: the emitted
    buzzer-expired answer (if any), the delay of the scheduled result
    timer, and the room state the scheduled transition produces. -/
structure BuzzerTimeoutResult where
  emitted : Option String
  resultDelayMs : ℕ
  after : JRoom
deriving DecidableEq, Repr

/-- The buzzer-window timeout callback of startBuzzerPhase.  The source
    computes the remaining un-buzzed players and then tests
    remaining.length === 0 || true, which always falls through to the
    reveal: broadcast buzzer-expired with the correct answer and schedule
    transitionToClueSelection three seconds later. -/
def buzzerTimeout (room : JRoom) : BuzzerTimeoutResult :=
  let remaining := (room.players.map fun kv => kv.1).filter
    fun sid => sid ∉ room.buzzedPlayers
  if remaining.length = 0 ∨ True then
    { emitted := room.currentClue.map fun c => c.answer
      resultDelayMs := 3000
      after := transitionToClueSelection room }
  else
    { emitted := none, resultDelayMs := 0, after := room }

/-- The daily-double-wager handler: dropped unless the room is in the
    wager phase and the sender is the answering player; the accepted
    wager is the floored request clamped between five and the
    round-dependent cap, and the room advances to the answer phase. -/
def dailyDoubleWagerHandler (room : JRoom) (sender : String) (amount : ℚ) :
    Option (ℤ × JRoom) :=
  if room.phase ≠ JPhase.dailyDoubleWager then none
  else if room.answeringPlayer ≠ some sender then none
  else
    match room.players.lookup sender with
    | none => none
    | some player =>
      let maxWager := if room.currentRound = JRound.jeopardy
        then max 1000 player.score else max 2000 player.score
      let wager := max 5 (min (jsFloor amount) maxWager)
      some (wager,
        { room with dailyDoubleWager := some wager, phase := JPhase.dailyDoubleAnswer })

/-- The final-jeopardy-wager handler: dropped unless the room is in the
    final wager phase and the sender is seated; the recorded wager is the
    floored request clamped between zero and the nonnegative part of the
    score. -/
def finalJeopardyWagerHandler (room : JRoom) (sender : String) (amount : ℚ) :
    Option (ℤ × JRoom) :=
  if room.phase ≠ JPhase.finalWager then none
  else
    match room.players.lookup sender with
    | none => none
    | some player =>
      let wager := max 0 (min (jsFloor amount) (max 0 player.score))
      some (wager, { room with fjWagers := setAssoc room.fjWagers sender wager })

/-- One Final Jeopardy reveal record. -/
structure Reveal where
  playerId : String
  playerName : String
  answer : String
  wager : ℤ
  correct : Bool
  scoreChange : ℤ
  newScore : ℤ
deriving DecidableEq, Repr

/-- Stable ascending insertion by score (extensionally the stable JS
    sort with the comparator on scores). -/
def insertByScore (x : String × JPlayer) : List (String × JPlayer) → List (String × JPlayer)
  | [] => [x]
  | y :: ys => if x.2.score ≤ y.2.score then x :: y :: ys else y :: insertByScore x ys

/-- Stable ascending sort by score. -/
def sortByScore : List (String × JPlayer) → List (String × JPlayer)
  | [] => []
  | x :: xs => insertByScore x (sortByScore xs)

/-- finalizeFinalJeopardy: sort players by pre-reveal score ascending,
    judge each recorded answer against the final answer, apply the
    signed wager, and produce the reveal list together with the room in
    the final results phase with updated scores. -/
def finalizeFinalJeopardy (room : JRoom) : List Reveal × JRoom :=
  let fjAnswer := (room.fj.map fun f => f.answer).getD ""
  let sorted := sortByScore room.players
  let reveals := sorted.map fun kv =>
    let answer := (room.fjAnswers.lookup kv.1).getD ""
    let wager := (room.fjWagers.lookup kv.1).getD 0
    let result := AnswerChecker.checkAnswer answer fjAnswer
    let scoreChange := if result.1 then wager else -wager
    ({ playerId := kv.1, playerName := kv.2.name, answer := answer, wager := wager,
       correct := result.1, scoreChange := scoreChange,
       newScore := kv.2.score + scoreChange } : Reveal)
  let players2 := room.players.map fun kv =>
    let answer := (room.fjAnswers.lookup kv.1).getD ""
    let wager := (room.fjWagers.lookup kv.1).getD 0
    let result := AnswerChecker.checkAnswer answer fjAnswer
    let scoreChange := if result.1 then wager else -wager
    (kv.1, { kv.2 with score := kv.2.score + scoreChange })
  (reveals, { room with phase := JPhase.finalResults, players := players2 })

/-- The reveal scheduling loop: the running delay grows by 3000 ms per
    reveal and each reveal is scheduled at the grown delay. -/
def scheduleRevealsGo (delay : ℕ) : List Reveal → List (ℕ × Reveal) × ℕ
  | [] => ([], delay)
  | r :: rs =>
    let d := delay + 3000
    let rest := scheduleRevealsGo d rs
    ((d, r) :: rest.1, rest.2)

/-- Reveal schedule and game-over time: reveals from delay zero, then
    game over 3000 ms after the last reveal. -/
def scheduleReveals (reveals : List Reveal) : List (ℕ × Reveal) × ℕ :=
  let out := scheduleRevealsGo 0 reveals
  (out.1, out.2 + 3000)

end Jeopardy

open Jeopardy

-- Claim C6 ────────────────────────────────────────────────────────────

/-- Claim C6: a daily-double wager accepted from the answering player in
    the wager phase is the floored requested amount clamped to the
    interval from five to the maximum of the round minimum (1000 in
    jeopardy, 2000 otherwise) and the player's score, and the room
    advances to the daily-double answer phase with that wager
    recorded. -/
theorem claim_C6_daily_double_clamp (room : JRoom) (sender : String) (amount : ℚ)
    (player : JPlayer)
    (hphase : room.phase = JPhase.dailyDoubleWager)
    (hans : room.answeringPlayer = some sender)
    (hplayer : room.players.lookup sender = some player) :
    dailyDoubleWagerHandler room sender amount =
      some (max 5 (min (jsFloor amount)
          (max (if room.currentRound = JRound.jeopardy then 1000 else 2000) player.score)),
        { room with
            dailyDoubleWager := some (max 5 (min (jsFloor amount)
              (max (if room.currentRound = JRound.jeopardy then 1000 else 2000) player.score))),
            phase := JPhase.dailyDoubleAnswer }) := by
  unfold dailyDoubleWagerHandler
  rw [if_neg (by simp [hphase]), if_neg (by simp [hans]), hplayer]
  by_cases hj : room.currentRound = JRound.jeopardy <;> simp [hj]

/-- Room of the daily-double wager example: a jeopardy-round room whose
    answering player p1 holds 500 points. -/
def exampleDDRoom : JRoom :=
  { phase := JPhase.dailyDoubleWager, currentRound := JRound.jeopardy,
    usedClues := [], players := [(("p1"), { name := "Alice", score := 500 })],
    answeringPlayer := some ("p1"), currentClue := none, buzzedPlayers := [],
    dailyDoubleWager := none, jRound := none, djRound := none, fj := none,
    fjWagers := [], fjAnswers := [] }

/-- Witness for claim C6: the player with score 500 in the jeopardy round
    wagering 9999 gets the accepted wager
    max 5 (min 9999 (max 1000 500)) = 1000. -/
theorem claim_C6_daily_double_clamp_witness :
    (exampleDDRoom.phase = JPhase.dailyDoubleWager ∧
     exampleDDRoom.answeringPlayer = some ("p1") ∧
     exampleDDRoom.players.lookup ("p1") = some { name := "Alice", score := 500 }) ∧
    dailyDoubleWagerHandler exampleDDRoom ("p1") 9999 =
      some (max 5 (min (jsFloor 9999)
          (max (if exampleDDRoom.currentRound = JRound.jeopardy then 1000 else 2000) (500 : ℤ))),
        { exampleDDRoom with
            dailyDoubleWager := some (max 5 (min (jsFloor 9999)
              (max (if exampleDDRoom.currentRound = JRound.jeopardy then 1000 else 2000) (500 : ℤ)))),
            phase := JPhase.dailyDoubleAnswer }) ∧
    max 5 (min (jsFloor (9999 : ℚ))
        (max (if exampleDDRoom.currentRound = JRound.jeopardy then 1000 else 2000) (500 : ℤ)))
      = 1000 :=
  ⟨⟨rfl, rfl, by decide⟩,
    claim_C6_daily_double_clamp exampleDDRoom ("p1") 9999 { name := "Alice", score := 500 }
      rfl rfl (by decide),
    by norm_num [jsFloor, exampleDDRoom]⟩

-- Claim C7 ────────────────────────────────────────────────────────────

/-- Clearing the clue bookkeeping does not change whether the round is
    exhausted. -/
theorem allCluesUsed_cleared (room : JRoom) :
    allCluesUsed (clearedRoom room) = allCluesUsed room := rfl

/-- Claim C7: whenever the buzzer window of the buzzerOpen phase expires,
    unconditionally in the set of remaining un-buzzed players (the room,
    hence its buzzed set, is arbitrary here), the timeout callback emits
    buzzer-expired carrying the current clue's correct answer and
    schedules transitionToClueSelection after a 3000 ms delay; that
    transition lands in the selectingClue phase whenever the round is not
    exhausted, and also on the round switch out of the jeopardy round. -/
theorem claim_C7_buzzer_timeout (room : JRoom) (c : CurrentClue)
    (hclue : room.currentClue = some c)
    (hnext : allCluesUsed room = false ∨ room.currentRound = JRound.jeopardy) :
    (buzzerTimeout room).emitted = some c.answer ∧
    (buzzerTimeout room).resultDelayMs = 3000 ∧
    (buzzerTimeout room).after = transitionToClueSelection room ∧
    (buzzerTimeout room).after.phase = JPhase.selectingClue := by
  have hBT : buzzerTimeout room =
      { emitted := Option.map (fun cl => cl.answer) room.currentClue
        resultDelayMs := 3000
        after := transitionToClueSelection room } := by
    unfold buzzerTimeout
    rw [if_pos (Or.inr trivial)]
  refine ⟨by rw [hBT]; simp [hclue], by rw [hBT], by rw [hBT], ?_⟩
  rw [hBT]
  show (transitionToClueSelection room).phase = _
  unfold transitionToClueSelection
  rcases hnext with hfalse | hjeo
  · rw [if_neg (by simp [allCluesUsed_cleared, hfalse])]
  · by_cases hall : allCluesUsed (clearedRoom room) = true
    · rw [if_pos hall, if_pos (by simp [clearedRoom, hjeo])]
    · rw [if_neg (by simpa using hall)]

/-- Room of the buzzer timeout example: an open buzzer on a live clue in
    a jeopardy-round room where nobody has buzzed. -/
def exampleBuzzRoom : JRoom :=
  { phase := JPhase.buzzerOpen, currentRound := JRound.jeopardy,
    usedClues := [(0, 1)],
    players := [(("p1"), { name := "Alice", score := 0 }),
                (("p2"), { name := "Bob", score := 200 })],
    answeringPlayer := none,
    currentClue := some { cat := 0, row := 1, value := 200, answer := "ozone" },
    buzzedPlayers := [], dailyDoubleWager := none,
    jRound := some { clues := [(0, 1), (0, 2)] }, djRound := none, fj := none,
    fjWagers := [], fjAnswers := [] }

/-- Witness for claim C7: on the example room the timeout reveals the
    answer ozone and the 3000 ms transition returns to clue selection. -/
theorem claim_C7_buzzer_timeout_witness :
    (exampleBuzzRoom.currentClue
        = some { cat := 0, row := 1, value := 200, answer := "ozone" } ∧
      (allCluesUsed exampleBuzzRoom = false ∨
        exampleBuzzRoom.currentRound = JRound.jeopardy)) ∧
    ((buzzerTimeout exampleBuzzRoom).emitted = some ("ozone") ∧
     (buzzerTimeout exampleBuzzRoom).resultDelayMs = 3000 ∧
     (buzzerTimeout exampleBuzzRoom).after = transitionToClueSelection exampleBuzzRoom ∧
     (buzzerTimeout exampleBuzzRoom).after.phase = JPhase.selectingClue) :=
  ⟨⟨rfl, Or.inl (by decide)⟩,
    claim_C7_buzzer_timeout exampleBuzzRoom
      { cat := 0, row := 1, value := 200, answer := "ozone" } rfl (Or.inl (by decide))⟩

-- Claim C8 ────────────────────────────────────────────────────────────

/-- Membership in an insertion is membership in the inserted element or
    the list. -/
theorem mem_insertByScore (a x : String × JPlayer) (l : List (String × JPlayer)) :
    a ∈ insertByScore x l ↔ a = x ∨ a ∈ l := by
  induction l with
  | nil => simp [insertByScore]
  | cons y ys ih =>
    unfold insertByScore
    split_ifs with h
    · simp [List.mem_cons]
    · simp only [List.mem_cons, ih]
      tauto

/-- Insertion by score preserves score-sortedness. -/
theorem pairwise_insertByScore (x : String × JPlayer) (l : List (String × JPlayer))
    (hl : l.Pairwise fun a c => a.2.score ≤ c.2.score) :
    (insertByScore x l).Pairwise fun a c => a.2.score ≤ c.2.score := by
  induction l with
  | nil => simp [insertByScore]
  | cons y ys ih =>
    rw [List.pairwise_cons] at hl
    unfold insertByScore
    split_ifs with h
    · refine List.pairwise_cons.mpr ⟨?_, List.pairwise_cons.mpr ⟨hl.1, hl.2⟩⟩
      intro z hz
      rcases List.mem_cons.mp hz with rfl | hz2
      · exact h
      · exact le_trans h (hl.1 z hz2)
    · refine List.pairwise_cons.mpr ⟨?_, ih hl.2⟩
      intro z hz
      rcases (mem_insertByScore z x ys).mp hz with rfl | hz2
      · exact le_of_not_le h
      · exact hl.1 z hz2

/-- The sort by score is score-sorted. -/
theorem sortByScore_pairwise (l : List (String × JPlayer)) :
    (sortByScore l).Pairwise fun a c => a.2.score ≤ c.2.score := by
  induction l with
  | nil => simp [sortByScore]
  | cons x xs ih => exact pairwise_insertByScore x (sortByScore xs) ih

/-- The reveal scheduling loop spaces the reveals 3000 ms apart starting
    3000 ms after the base delay, and returns the last delay. -/
theorem scheduleRevealsGo_spec (l : List Reveal) : ∀ d : ℕ,
    (scheduleRevealsGo d l).1.length = l.length ∧
    (∀ i (hi : i < (scheduleRevealsGo d l).1.length),
      ((scheduleRevealsGo d l).1.get ⟨i, hi⟩).1 = d + 3000 * (i + 1)) ∧
    (scheduleRevealsGo d l).2 = d + 3000 * l.length := by
  induction l with
  | nil => intro d; simp [scheduleRevealsGo]
  | cons r rs ih =>
    intro d
    simp only [scheduleRevealsGo, List.length_cons]
    refine ⟨by rw [(ih (d + 3000)).1], ?_, by rw [(ih (d + 3000)).2.2]; omega⟩
    intro i hi
    cases i with
    | zero => simp
    | succ j =>
      simp only [List.get_cons_succ]
      rw [(ih (d + 3000)).2.1 j (by simpa using hi)]
      omega

/-- Claim C8: Final Jeopardy reveals are produced in ascending order of
    pre-reveal score (the pre-reveal score of a reveal being its new
    score minus its score change); each reveal applies plus the wager
    when the answer judges correct and minus it otherwise; reveal number
    i is scheduled at 3000 (i + 1) milliseconds; and game over fires
    3000 ms after the last reveal, at 3000 n + 3000 ms for n reveals. -/
theorem claim_C8_final_reveals (room : JRoom) (f : FJInfo) (hfj : room.fj = some f) :
    List.Pairwise (fun r1 r2 : Reveal =>
        r1.newScore - r1.scoreChange ≤ r2.newScore - r2.scoreChange)
      (finalizeFinalJeopardy room).1 ∧
    (∀ rev ∈ (finalizeFinalJeopardy room).1,
      rev.scoreChange = if rev.correct then rev.wager else -rev.wager) ∧
    (scheduleReveals (finalizeFinalJeopardy room).1).1.length
      = (finalizeFinalJeopardy room).1.length ∧
    (∀ i (hi : i < (scheduleReveals (finalizeFinalJeopardy room).1).1.length),
      ((scheduleReveals (finalizeFinalJeopardy room).1).1.get ⟨i, hi⟩).1 = 3000 * (i + 1)) ∧
    (scheduleReveals (finalizeFinalJeopardy room).1).2
      = 3000 * (finalizeFinalJeopardy room).1.length + 3000 := by
  have hgo := scheduleRevealsGo_spec (finalizeFinalJeopardy room).1 0
  refine ⟨?_, ?_, ?_, ?_, ?_⟩
  · simp only [finalizeFinalJeopardy]
    rw [List.pairwise_map]
    apply List.Pairwise.imp ?_ (sortByScore_pairwise room.players)
    intro a c h
    simp only []
    omega
  · simp only [finalizeFinalJeopardy]
    intro rev hrev
    rw [List.mem_map] at hrev
    obtain ⟨kv, _, rfl⟩ := hrev
    rfl
  · simp only [scheduleReveals]
    rw [hgo.1]
  · intro i hi
    simp only [scheduleReveals] at hi ⊢
    rw [hgo.2.1 i hi]
    omega
  · simp only [scheduleReveals]
    rw [hgo.2.2]
    omega

/-- Room of the final reveal example: three players scored 1200, 400 and
    1800, no recorded wagers or answers, final answer test. -/
def exampleFJRoom : JRoom :=
  { phase := JPhase.finalClue, currentRound := JRound.finalJeopardy,
    usedClues := [],
    players := [(("sA"), { name := "A", score := 1200 }),
                (("sB"), { name := "B", score := 400 }),
                (("sC"), { name := "C", score := 1800 })],
    answeringPlayer := none, currentClue := none, buzzedPlayers := [],
    dailyDoubleWager := none, jRound := none, djRound := none,
    fj := some { answer := "test" }, fjWagers := [], fjAnswers := [] }

/-- Witness for claim C8: on the example room the reveals come in the
    order B, A, C at 3000, 6000 and 9000 ms and game over fires at
    12000 ms. -/
theorem claim_C8_final_reveals_witness :
    (exampleFJRoom.fj = some { answer := "test" }) ∧
    (List.Pairwise (fun r1 r2 : Reveal =>
        r1.newScore - r1.scoreChange ≤ r2.newScore - r2.scoreChange)
      (finalizeFinalJeopardy exampleFJRoom).1 ∧
     (∀ rev ∈ (finalizeFinalJeopardy exampleFJRoom).1,
       rev.scoreChange = if rev.correct then rev.wager else -rev.wager) ∧
     (scheduleReveals (finalizeFinalJeopardy exampleFJRoom).1).1.length
       = (finalizeFinalJeopardy exampleFJRoom).1.length ∧
     (∀ i (hi : i < (scheduleReveals (finalizeFinalJeopardy exampleFJRoom).1).1.length),
       ((scheduleReveals (finalizeFinalJeopardy exampleFJRoom).1).1.get ⟨i, hi⟩).1
         = 3000 * (i + 1)) ∧
     (scheduleReveals (finalizeFinalJeopardy exampleFJRoom).1).2
       = 3000 * (finalizeFinalJeopardy exampleFJRoom).1.length + 3000) ∧
    (finalizeFinalJeopardy exampleFJRoom).1.map (fun r => r.playerName)
      = [("B"), ("A"), ("C")] ∧
    (scheduleReveals (finalizeFinalJeopardy exampleFJRoom).1).1.map Prod.fst
      = [3000, 6000, 9000] ∧
    (scheduleReveals (finalizeFinalJeopardy exampleFJRoom).1).2 = 12000 :=
  ⟨rfl,
    claim_C8_final_reveals exampleFJRoom { answer := "test" } rfl,
    by decide, by decide, by decide⟩

-- Claim C10 ───────────────────────────────────────────────────────────

/-- Claim C10: a final-jeopardy wager accepted in the finalWager phase
    from a seated player records the floored requested amount clamped to
    the interval from zero to the nonnegative part of the player's
    score; in particular the recorded wager is nonnegative, never exceeds
    max 0 score, and is zero whenever the score is nonpositive, so no
    player can lose more than max 0 score in Final Jeopardy. -/
theorem claim_C10_final_wager_clamp (room : JRoom) (sender : String) (amount : ℚ)
    (player : JPlayer)
    (hphase : room.phase = JPhase.finalWager)
    (hplayer : room.players.lookup sender = some player) :
    finalJeopardyWagerHandler room sender amount =
      some (max 0 (min (jsFloor amount) (max 0 player.score)),
        { room with fjWagers := (setAssoc room.fjWagers sender
            (max 0 (min (jsFloor amount) (max 0 player.score)))) }) ∧
    (0 : ℤ) ≤ max 0 (min (jsFloor amount) (max 0 player.score)) ∧
    max 0 (min (jsFloor amount) (max 0 player.score)) ≤ max 0 player.score ∧
    (player.score ≤ 0 → max 0 (min (jsFloor amount) (max 0 player.score)) = 0) := by
  refine ⟨?_, le_max_left _ _, ?_, ?_⟩
  · unfold finalJeopardyWagerHandler
    rw [if_neg (by simp [hphase]), hplayer]
  · apply max_le
    · exact le_max_left _ _
    · exact le_trans (min_le_right _ _) (le_refl _)
  · intro hs
    have h0 : max 0 player.score = 0 := by omega
    rw [h0]
    omega

/-- Room of the final wager example: a finalWager-phase room whose player
    p1 sits at a negative score. -/
def exampleFWRoom : JRoom :=
  { phase := JPhase.finalWager, currentRound := JRound.finalJeopardy,
    usedClues := [], players := [(("p1"), { name := "Carol", score := -200 })],
    answeringPlayer := none, currentClue := none, buzzedPlayers := [],
    dailyDoubleWager := none, jRound := none, djRound := none,
    fj := some { answer := "test" }, fjWagers := [], fjAnswers := [] }

/-- Witness for claim C10: the player at score -200 wagering 500 records
    the wager zero. -/
theorem claim_C10_final_wager_clamp_witness :
    (exampleFWRoom.phase = JPhase.finalWager ∧
     exampleFWRoom.players.lookup ("p1") = some { name := "Carol", score := -200 }) ∧
    (finalJeopardyWagerHandler exampleFWRoom ("p1") 500 =
      some (max 0 (min (jsFloor 500) (max 0 (-200 : ℤ))),
        { exampleFWRoom with fjWagers := (setAssoc exampleFWRoom.fjWagers ("p1")
            (max 0 (min (jsFloor 500) (max 0 (-200 : ℤ))))) }) ∧
     (0 : ℤ) ≤ max 0 (min (jsFloor 500) (max 0 (-200 : ℤ))) ∧
     max 0 (min (jsFloor 500) (max 0 (-200 : ℤ))) ≤ max 0 (-200 : ℤ) ∧
     ((-200 : ℤ) ≤ 0 → max 0 (min (jsFloor 500) (max 0 (-200 : ℤ))) = 0)) ∧
    max 0 (min (jsFloor (500 : ℚ)) (max 0 (-200 : ℤ))) = 0 :=
  ⟨⟨rfl, by decide⟩,
    claim_C10_final_wager_clamp exampleFWRoom ("p1") 500 { name := "Carol", score := -200 }
      rfl (by decide),
    by norm_num [jsFloor]⟩

namespace BotSolver

-- Claim C9: bot timing distribution (distributeAiTiming, part_002
-- lines 806 to 855).  Math.random() is modelled by an explicit stream
-- rnd : ℕ → ℚ of draws, consumed left to right exactly as the source
-- consumes them: two draws per word in the think loop, then in the cell
-- loop four draws on a streak reset and one draw per in-streak cell.

def rawThinkEntry (r v : ℚ) : ℚ :=
  if r < 1/4 then 3 + v * 7
  else if r < 11/20 then 4/5 + v * (11/5)
  else 1/10 + v * (7/10)

def rawThinkList (rnd : ℕ → ℚ) : ℕ → ℕ → List ℚ
  | _, 0 => []
  | idx, n + 1 =>
    rawThinkEntry (rnd idx) (rnd (idx + 1)) :: rawThinkList rnd (idx + 2) n

def rawCellLoop (rnd : ℕ → ℚ) : ℕ → ℕ → ℤ → ℚ → List ℚ
  | _, 0, _, _ => []
  | idx, n + 1, streakLen, streakSpeed =>
    if streakLen ≤ 0 then
      let newLen : ℤ := 2 + jsFloor (rnd idx * 7)
      let r := rnd (idx + 1)
      let newSpeed : ℚ :=
        if r < 3/10 then 1/5 + rnd (idx + 2) * (2/5)
        else if r < 7/10 then 1/2 + rnd (idx + 2) * 1
        else 3/2 + rnd (idx + 2) * (5/2)
      newSpeed * (3/5 + rnd (idx + 3) * (4/5)) ::
        rawCellLoop rnd (idx + 4) n (newLen - 1) newSpeed
    else
      streakSpeed * (3/5 + rnd idx * (4/5)) ::
        rawCellLoop rnd (idx + 1) n (streakLen - 1) streakSpeed

structure AiTiming where
  thinkTimes : List ℚ
  cellTimes : List ℚ
deriving Repr, DecidableEq

def distributeAiTiming (rnd : ℕ → ℚ) (cellCount : ℕ) (finalSolveTime : ℚ)
    (wordCount : ℕ) : AiTiming :=
  if cellCount = 0 then { thinkTimes := [], cellTimes := [] }
  else
    let totalMs := finalSolveTime * 1000
    let rawThink := rawThinkList rnd 0 wordCount
    let thinkSum := rawThink.sum
    let thinkTimes := rawThink.map (fun v => max 40 (v / thinkSum * totalMs * (1/4)))
    let rawCell := rawCellLoop rnd (2 * wordCount) cellCount 0 1
    let cellSum := rawCell.sum
    let cellTimes := rawCell.map (fun v => max 40 (v / cellSum * totalMs * (3/4)))
    { thinkTimes := thinkTimes, cellTimes := cellTimes }

/-- Every raw think entry is positive when the draws are nonnegative. -/
theorem rawThinkEntry_pos (r v : ℚ) (hv : 0 ≤ v) : 0 < rawThinkEntry r v := by
  unfold rawThinkEntry
  split_ifs <;> nlinarith [hv]

/-- The think loop emits one entry per word. -/
theorem rawThinkList_length (rnd : ℕ → ℚ) :
    ∀ n idx, (rawThinkList rnd idx n).length = n := by
  intro n
  induction n with
  | zero => intro idx; rfl
  | succ m ih => intro idx; simp [rawThinkList, ih]

/-- Every raw think entry is positive when the draws are nonnegative. -/
theorem rawThinkList_pos (rnd : ℕ → ℚ) (hr : ∀ n, 0 ≤ rnd n) :
    ∀ n idx, ∀ x ∈ rawThinkList rnd idx n, 0 < x := by
  intro n
  induction n with
  | zero => intro idx x hx; simp [rawThinkList] at hx
  | succ m ih =>
    intro idx x hx
    rcases List.mem_cons.mp hx with rfl | hx2
    · exact rawThinkEntry_pos _ _ (hr (idx + 1))
    · exact ih (idx + 2) x hx2

/-- The cell loop emits one entry per cell. -/
theorem rawCellLoop_length (rnd : ℕ → ℚ) :
    ∀ n idx sl sp, (rawCellLoop rnd idx n sl sp).length = n := by
  intro n
  induction n with
  | zero => intro idx sl sp; rfl
  | succ m ih =>
    intro idx sl sp
    unfold rawCellLoop
    split_ifs <;> simp [ih]

/-- Every raw cell entry is positive when the draws are nonnegative and
    the incoming streak speed is positive. -/
theorem rawCellLoop_pos (rnd : ℕ → ℚ) (hr : ∀ n, 0 ≤ rnd n) :
    ∀ n idx sl (sp : ℚ), 0 < sp → ∀ x ∈ rawCellLoop rnd idx n sl sp, 0 < x := by
  intro n
  induction n with
  | zero => intro idx sl sp hsp x hx; simp [rawCellLoop] at hx
  | succ m ih =>
    intro idx sl sp hsp x hx
    rw [rawCellLoop] at hx
    split_ifs at hx with hlen
    · have hspeed : (0 : ℚ) <
          (if rnd (idx + 1) < 3/10 then 1/5 + rnd (idx + 2) * (2/5)
           else if rnd (idx + 1) < 7/10 then 1/2 + rnd (idx + 2) * 1
           else 3/2 + rnd (idx + 2) * (5/2)) := by
        split_ifs <;> nlinarith [hr (idx + 2)]
      rcases List.mem_cons.mp hx with rfl | hx2
      · exact mul_pos hspeed (by nlinarith [hr (idx + 3)])
      · exact ih (idx + 4) _ _ hspeed x hx2
    · rcases List.mem_cons.mp hx with rfl | hx2
      · exact mul_pos hsp (by nlinarith [hr idx])
      · exact ih (idx + 1) _ _ hsp x hx2

/-- Summing a list scaled by a constant scales the sum. -/
theorem sum_map_mulC (l : List ℚ) (r : ℚ) :
    (l.map (fun v => v * r)).sum = l.sum * r := by
  induction l with
  | nil => simp
  | cons x xs ih => simp [ih, add_mul]

/-- Flooring each normalised share at 40 can only push the total at or
    above the exact share T q of the budget. -/
theorem sum_map_max40 (l : List ℚ) (T q : ℚ) (hpos : 0 < l.sum) :
    T * q ≤ (l.map (fun v => max 40 (v / l.sum * T * q))).sum := by
  have hf : (fun v : ℚ => v / l.sum * T * q) = fun v => v * (T * q / l.sum) := by
    funext v; ring
  have key : (l.map (fun v => v / l.sum * T * q)).sum = T * q := by
    rw [hf, sum_map_mulC]
    field_simp
  calc T * q = (l.map (fun v => v / l.sum * T * q)).sum := key.symm
    _ ≤ (l.map (fun v => max 40 (v / l.sum * T * q))).sum :=
        List.sum_le_sum (fun i _ => le_max_right _ _)

/-- Claim C9 counterexample: with all random draws 0, one word, one cell
    and finalSolveTime 0.1 s the single think interval is clamped from
    25 ms up to 40 ms, so the think times sum to 40 ms, not the claimed
    25 percent of the 100 ms budget, which is 25 ms. -/
theorem claim_C9_counterexample :
    (distributeAiTiming (fun _ => 0) 1 (1/10) 1).thinkTimes.sum = 40 ∧
    ((1 : ℚ)/10) * 1000 * (1/4) = 25 ∧ ((40 : ℚ)) ≠ 25 := by
  refine ⟨?_, by norm_num, by norm_num⟩
  have h0 : rawThinkList (fun _ : ℕ => (0 : ℚ)) 2 0 = [] := rfl
  have h1 : rawThinkEntry ((fun _ : ℕ => (0 : ℚ)) 0) ((fun _ : ℕ => (0 : ℚ)) 1) = 3 := by
    simp only [rawThinkEntry]
    rw [if_pos (by norm_num)]
    norm_num
  have hlist : rawThinkList (fun _ : ℕ => (0 : ℚ)) 0 1 = [3] := by
    show rawThinkEntry ((fun _ : ℕ => (0 : ℚ)) 0) ((fun _ : ℕ => (0 : ℚ)) 1) ::
        rawThinkList (fun _ : ℕ => (0 : ℚ)) 2 0 = [3]
    rw [h0, h1]
  have hd : (distributeAiTiming (fun _ => 0) 1 (1/10) 1).thinkTimes
      = (rawThinkList (fun _ : ℕ => (0 : ℚ)) 0 1).map
          (fun v => max 40 (v / (rawThinkList (fun _ : ℕ => (0 : ℚ)) 0 1).sum
            * ((1 : ℚ)/10 * 1000) * (1/4))) := by
    simp only [distributeAiTiming, if_neg (by norm_num : (1 : ℕ) ≠ 0)]
  rw [hd, hlist]
  simp only [List.map_cons, List.map_nil, List.sum_cons, List.sum_nil]
  rw [max_eq_left (by norm_num)]
  norm_num

/-- Claim C9 (amended): for every positive cell count and word count and
    every random stream of nonnegative draws, the bot timing distribution
    returns one think time per word and one cell time per cell, every
    emitted interval at least 40 ms, the think times summing to at least
    25 percent of finalSolveTime times 1000 ms and the cell times to at
    least 75 percent of it; the 40 ms floor is applied after
    normalisation, so the sums can strictly exceed the stated shares and
    exact equality fails. -/
theorem claim_C9_ai_timing (rnd : ℕ → ℚ) (cellCount wordCount : ℕ) (finalSolveTime : ℚ)
    (hr : ∀ n, 0 ≤ rnd n) (hc : 0 < cellCount) (hw : 0 < wordCount) :
    (distributeAiTiming rnd cellCount finalSolveTime wordCount).thinkTimes.length = wordCount ∧
    (distributeAiTiming rnd cellCount finalSolveTime wordCount).cellTimes.length = cellCount ∧
    (∀ t ∈ (distributeAiTiming rnd cellCount finalSolveTime wordCount).thinkTimes, 40 ≤ t) ∧
    (∀ t ∈ (distributeAiTiming rnd cellCount finalSolveTime wordCount).cellTimes, 40 ≤ t) ∧
    finalSolveTime * 1000 * (1/4) ≤
      (distributeAiTiming rnd cellCount finalSolveTime wordCount).thinkTimes.sum ∧
    finalSolveTime * 1000 * (3/4) ≤
      (distributeAiTiming rnd cellCount finalSolveTime wordCount).cellTimes.sum := by
  have hcne : cellCount ≠ 0 := hc.ne'
  have hTpos : 0 < (rawThinkList rnd 0 wordCount).sum :=
    List.sum_pos _ (rawThinkList_pos rnd hr wordCount 0)
      (List.ne_nil_of_length_pos (by rw [rawThinkList_length]; exact hw))
  have hCpos : 0 < (rawCellLoop rnd (2 * wordCount) cellCount 0 1).sum :=
    List.sum_pos _ (rawCellLoop_pos rnd hr cellCount (2 * wordCount) 0 1 one_pos)
      (List.ne_nil_of_length_pos (by rw [rawCellLoop_length]; exact hc))
  simp only [distributeAiTiming, if_neg hcne]
  refine ⟨?_, ?_, ?_, ?_, ?_, ?_⟩
  · rw [List.length_map, rawThinkList_length]
  · rw [List.length_map, rawCellLoop_length]
  · intro t ht
    rw [List.mem_map] at ht
    obtain ⟨v, _, rfl⟩ := ht
    exact le_max_left _ _
  · intro t ht
    rw [List.mem_map] at ht
    obtain ⟨v, _, rfl⟩ := ht
    exact le_max_left _ _
  · exact sum_map_max40 _ (finalSolveTime * 1000) (1/4) hTpos
  · exact sum_map_max40 _ (finalSolveTime * 1000) (3/4) hCpos

/-- Witness for claim C9: one word and one cell solved in one second with
    the all-zero random stream. -/
theorem claim_C9_ai_timing_witness :
    (∀ n : ℕ, (0 : ℚ) ≤ (fun _ : ℕ => (0 : ℚ)) n) ∧ (0 < 1) ∧
    ((distributeAiTiming (fun _ => 0) 1 1 1).thinkTimes.length = 1 ∧
     (distributeAiTiming (fun _ => 0) 1 1 1).cellTimes.length = 1 ∧
     (∀ t ∈ (distributeAiTiming (fun _ => 0) 1 1 1).thinkTimes, 40 ≤ t) ∧
     (∀ t ∈ (distributeAiTiming (fun _ => 0) 1 1 1).cellTimes, 40 ≤ t) ∧
     (1 : ℚ) * 1000 * (1/4) ≤ (distributeAiTiming (fun _ => 0) 1 1 1).thinkTimes.sum ∧
     (1 : ℚ) * 1000 * (3/4) ≤ (distributeAiTiming (fun _ => 0) 1 1 1).cellTimes.sum) :=
  ⟨fun _ => le_refl 0, Nat.one_pos,
    claim_C9_ai_timing (fun _ => 0) 1 1 1 (fun _ => le_refl 0) Nat.one_pos Nat.one_pos⟩

end BotSolver

end Spec2Proof
